import Mathlib

/-!
Verification development for the core compiler of the `q` language
(single-pass x86-64 code generation with register allocation).

The Go sources embedded here:
* `Call.go` — `Call`, `CallExpression`, `BeforeCall`, `AfterCall`, `printLn`
* `For.go` — `ForStart`, `ForEnd`
* `Build.go` — `Compile` (final linking of compiled functions)
* `assembler/Helpers.go` — mnemonic emission (modelled as an instruction trace)

Pieces of the repository that live outside the available sources
(the `register` package, the builtin-function table, `ExpressionToRegister`,
`CompareExpression`, `AssignVariable`, `TokensToRegister`, scope bookkeeping)
are modelled from the specification; each such definition carries a doc
comment starting with `Modelled from the spec:`.
-/

namespace QBuild

/-- Semantic types of the language (spec section 3: signed/unsigned integers,
boolean, text). Equality is by identity. -/
inductive Ty where
  | i8 | i16 | i32 | i64
  | u8 | u16 | u32 | u64
  | boolean
  | text
  deriving DecidableEq, Repr

/-- The `String()` rendering of a type, used inside `InvalidType` errors. -/
def typeName : Ty → String
  | .i8 => "Int8" | .i16 => "Int16" | .i32 => "Int32" | .i64 => "Int64"
  | .u8 => "UInt8" | .u16 => "UInt16" | .u32 => "UInt32" | .u64 => "UInt64"
  | .boolean => "Bool"
  | .text => "Text"

/-- The rendering of `typ.String()` when the expression produced no value
(a `nil` type in the Go source). -/
def typeNameOpt : Option Ty → String
  | none => "nil"
  | some t => typeName t

/-- Register names are canonical x86-64 names such as `rax`. -/
abbrev RegName := String

/-- Token kinds (spec section 3, `Token.Kind`). -/
inductive TokenKind where
  | identifier | number | text | operator | keyword
  | separator | groupStart | groupEnd | blockStart | blockEnd
  | range | newline | comment
  deriving DecidableEq, Repr

/-- A token: kind plus its textual slice (`Token.Text()`). -/
structure Token where
  kind : TokenKind
  text : String
  deriving DecidableEq, Repr

/-- Expression node (spec section 3): a token plus ordered children.
A leaf has no children; a function call is a node whose token is an
identifier and whose children are the argument expressions. -/
inductive Expr where
  | node (tok : Token) (children : List Expr)

/-- The token of an expression node. -/
def Expr.tok : Expr → Token
  | .node t _ => t

/-- The children of an expression node. -/
def Expr.children : Expr → List Expr
  | .node _ c => c

/-- `IsLeaf` from the expression package: no children. -/
def Expr.isLeaf : Expr → Bool
  | .node _ c => c.isEmpty

/-- A declared function parameter: name and type (`spec.Parameter`). -/
structure Parameter where
  name : String
  type : Ty
  deriving DecidableEq, Repr

/-- A function record (spec section 3, `Function`): name, parameters, return
types, the published clobber set (`UsedRegisterNames`), the atomic
`SideEffects` and `CallCount` counters, and the `NoParameterCheck` and
`CanInline` flags. -/
structure Function where
  name : String
  parameters : List Parameter
  returnTypes : List Ty
  usedRegisterNames : List RegName
  sideEffects : Nat
  callCount : Nat
  noParameterCheck : Bool
  canInline : Bool
  deriving DecidableEq, Repr

/-- The possible users of a register (spec section 3, `Register`): a variable
binding, a declared parameter claimed for an argument slot, or a transient
expression. -/
inductive RegUser where
  | variable (name : String) (aliveUntil : Nat)
  | parameter (p : Parameter)
  | expression
  deriving DecidableEq, Repr

/-- Whether a register user is a `Variable` (the Go type assertion
`User().(*Variable)` succeeds exactly on these). -/
def RegUser.isVariable : RegUser → Bool
  | .variable _ _ => true
  | _ => false

/-- A scope-local variable (spec section 3, `Variable`): name, current
register, liveness bound `AliveUntil`, declared type, and whether it has
been read (for the unused-variable check at scope close). -/
structure Variable where
  name : String
  register : Option RegName
  aliveUntil : Nat
  type : Ty
  used : Bool
  deriving DecidableEq, Repr

/-- Compile errors (spec section 7). Each constructor mirrors one error value
of the `errors` package that the embedded code can produce. -/
inductive CompileError where
  | missingFunctionName
  | missingCharacter (c : String)
  | unknownFunction (name : String)
  | parameterCount (functionName : String) (given required : Nat)
  | invalidType (got expected parameterName : String)
  | exceededMaxVariables
  | unknownIdentifier (name : String)
  | missingRange
  | missingRangeStart
  | missingRangeLimit
  | unknownExpression
  | textParameterExpected (functionName got : String)
  | registerInUse (name : RegName)
  | variableUnused (name : String)
  deriving DecidableEq, Repr

/-- Emitted instructions, mirroring the mnemonic helpers of
`assembler/Helpers.go`. `evalTokens` stands for the instruction stream that
`TokensToRegister` produces for an arbitrary token expression. -/
inductive Instr where
  | push (r : RegName)
  | pop (r : RegName)
  | movRegisterRegister (dst src : RegName)
  | movRegisterNumber (dst : RegName) (n : Nat)
  | movRegisterAddress (dst : RegName) (addr : Nat)
  | cmpRegisterRegister (a b : RegName)
  | increaseRegister (r : RegName)
  | syscallInstr
  | callLabel (label : String)
  | inlined (functionName : String)
  | jump (label : String)
  | jumpIfEqual (label : String)
  | addLabel (name : String)
  | storeNumber (r : RegName) (offset byteCount value : Nat)
  | exit (code : Nat)
  | evalTokens (dst : RegName) (tokens : List Token)
  | bodyMarker
  deriving DecidableEq, Repr

/-- Observable events of one compile step: an emitted instruction, the
blocking wait on a callee's completion (`function.Wait()`), or the atomic
increment of the compiling function's own `SideEffects` counter. -/
inductive Event where
  | instr (i : Instr)
  | wait (functionName : String)
  | sideEffectIncrement
  deriving DecidableEq, Repr

/-- Whether an event is an emitted instruction. -/
def Event.isInstr : Event → Bool
  | .instr _ => true
  | _ => false

/-- The outcome of a compile step: success, a compile error sent to the error
channel, a Go runtime panic, or fuel exhaustion of this embedding's
recursion bound. -/
inductive Outcome (α : Type) where
  | ok (a : α)
  | error (e : CompileError)
  | panic (msg : String)
  | outOfFuel
  deriving DecidableEq, Repr

/-- Whether an outcome is a success. -/
def Outcome.isOk {α : Type} : Outcome α → Bool
  | .ok _ => true
  | _ => false

/-- An active for loop on the compile stack (`ForLoop` in `For.go`). -/
structure ForLoop where
  labelStart : String
  labelEnd : String
  counter : RegName
  limit : Option RegName
  deriving DecidableEq, Repr

/-- The per-function compile state (`State` in the `build` package): the used
registers with their users, the scope stack (innermost first), the string
pool of the assembler, the environment's function table (keyed by mangled
name), the compiling function's own `SideEffects` counter, the
`InstructionEndPosition()` of the statement under compilation, and the
for-loop counter and stack. Emitted instructions and synchronisation events
are returned separately by each compile step, in emission order. -/
structure State where
  regs : List (RegName × RegUser)
  scopes : List (List Variable)
  strings : List String
  environment : List (String × Function)
  functionSideEffects : Nat
  instructionEnd : Nat
  forCounter : Nat
  forStack : List ForLoop
  deriving DecidableEq, Repr

/-- Look up the user of a register; `none` means the register is free
(`Register.IsFree`). -/
def lookupReg (regs : List (RegName × RegUser)) (r : RegName) : Option RegUser :=
  (regs.find? (fun e => e.1 = r)).map (fun e => e.2)

/-- Free a register (`Register.Free`). -/
def freeReg (regs : List (RegName × RegUser)) (r : RegName) : List (RegName × RegUser) :=
  regs.filter (fun e => ¬ e.1 = r)

/-- Modelled from the spec: `Register.Use` of the missing `register` package —
a register has at most one user, and claiming an occupied register fails;
this is the error-checked form used for the return-value register. -/
def useRegChecked (regs : List (RegName × RegUser)) (r : RegName) (u : RegUser) :
    Outcome (List (RegName × RegUser)) :=
  match lookupReg regs r with
  | some _ => .error (.registerInUse r)
  | none => .ok ((r, u) :: regs)

/-- Modelled from the spec: `Register.Use` with its error discarded
(`_ = callRegister.Use(...)` in `BeforeCall`): an occupied register keeps
its old user. -/
def useRegIgnore (regs : List (RegName × RegUser)) (r : RegName) (u : RegUser) :
    List (RegName × RegUser) :=
  match lookupReg regs r with
  | some _ => regs
  | none => (r, u) :: regs

/-- Modelled from the spec: the general allocation pool of the register file.
The concrete names stand in for the missing `register` package's pool; the
claims do not depend on the particular choice. -/
def generalRegisters : List RegName :=
  ["rax", "rbx", "rcx", "rdx", "rdi", "rsi", "r8", "r9", "r10",
   "r11", "r12", "r13", "r14", "r15"]

/-- Modelled from the spec: the call-ABI list — ordered argument positions
for user calls (six slots, spec section 8). -/
def callRegisterList : List RegName :=
  ["rdi", "rsi", "rdx", "rcx", "r8", "r9"]

/-- Modelled from the spec: the syscall-ABI list — ordered argument positions
for syscalls (`syscall` number plus up to six arguments). -/
def syscallRegisterList : List RegName :=
  ["rax", "rdi", "rsi", "rdx", "r10", "r8", "r9"]

/-- Modelled from the spec: the return-value register list. -/
def returnValueRegisterList : List RegName :=
  ["rax"]

/-- `FindFreeRegister` / `General.FindFree`: the first general-pool register
without a user. -/
def findFreeRegister (regs : List (RegName × RegUser)) : Option RegName :=
  generalRegisters.find? (fun r => (lookupReg regs r).isNone)

/-- `scopes.Get`: walk the scope stack outward for a variable binding
(inner scopes shadow outer ones). -/
def scopesGet : List (List Variable) → String → Option Variable
  | [], _ => none
  | s :: rest, name =>
      match s.find? (fun v => v.name = name) with
      | some v => some v
      | none => scopesGet rest name

/-- Modelled from the spec: `UseVariable` marks the innermost binding of the
given name as read. -/
def scopesMarkUsed : List (List Variable) → String → List (List Variable)
  | [], _ => []
  | s :: rest, name =>
      if s.any (fun v => v.name = name) then
        s.map (fun v => if v.name = name then { v with used := true } else v) :: rest
      else
        s :: scopesMarkUsed rest name

/-- Modelled from the spec: `Variable.SetRegister` re-homes the innermost
binding of the given name to another register. -/
def scopesSetRegister : List (List Variable) → String → RegName → List (List Variable)
  | [], _, _ => []
  | s :: rest, name, r =>
      if s.any (fun v => v.name = name) then
        s.map (fun v => if v.name = name then { v with register := some r } else v) :: rest
      else
        s :: scopesSetRegister rest name r

/-- Decimal digit parsing over the characters of a literal; a non-digit
character aborts. -/
def atoiCore : List Char → Nat → Option Nat
  | [], acc => some acc
  | c :: cs, acc =>
      if 48 ≤ c.toNat ∧ c.toNat ≤ 57 then atoiCore cs (acc * 10 + (c.toNat - 48))
      else none

/-- `strconv.Atoi` with its error discarded (`offset, _ := strconv.Atoi(...)`
in the `store` builtin): non-numeric text yields 0. -/
def atoi (s : String) : Nat :=
  match s.data with
  | [] => 0
  | cs => (atoiCore cs 0).getD 0

/-- The byte offset of a string inside the pool, if present
(the deduplication lookup of the assembler's string pool). -/
def stringPoolFind : List String → String → Option Nat
  | [], _ => none
  | p :: rest, s =>
      if p = s then some 0
      else (stringPoolFind rest s).map (fun off => p.length + off)

/-- `assembler.AddString`: intern a string into the pool, returning its
address (modelled as the byte offset inside the deduplicated pool). -/
def addString (pool : List String) (s : String) : Nat × List String :=
  match stringPoolFind pool s with
  | some addr => (addr, pool)
  | none => ((pool.map String.length).sum, pool ++ [s])

/-- The Linux `write` syscall number (`syscall.Write` of the external
`akyoto/asm` dependency). -/
def sysWrite : Nat := 1

/-- The builtin name constants of the `build` package. -/
def BuiltinPrint : String := "print"

/-- The builtin name `store`. -/
def BuiltinStore : String := "store"

/-- The builtin name `syscall`. -/
def BuiltinSyscall : String := "syscall"

/-- Modelled from the spec: the builtin `print(text)` — one text parameter,
side-effecting, parameter-checked. Builtins are never compiled, so their
clobber sets are empty. -/
def printBuiltin : Function :=
  { name := "print", parameters := [⟨"text", .text⟩], returnTypes := [],
    usedRegisterNames := [], sideEffects := 1, callCount := 0,
    noParameterCheck := false, canInline := false }

/-- Modelled from the spec: the builtin `store(var, offset, byteCount,
value)` — four parameters, parameter-checked. -/
def storeBuiltin : Function :=
  { name := "store",
    parameters := [⟨"variable", .i64⟩, ⟨"offset", .i64⟩,
                   ⟨"byteCount", .i64⟩, ⟨"value", .i64⟩],
    returnTypes := [], usedRegisterNames := [], sideEffects := 0,
    callCount := 0, noParameterCheck := false, canInline := false }

/-- Modelled from the spec: the builtin `syscall(num, …args)` — the syscall
number plus up to six arguments, side-effecting, opting out of parameter
checking. -/
def syscallBuiltin : Function :=
  { name := "syscall",
    parameters := [⟨"number", .i64⟩, ⟨"a", .i64⟩, ⟨"b", .i64⟩,
                   ⟨"c", .i64⟩, ⟨"d", .i64⟩, ⟨"e", .i64⟩, ⟨"f", .i64⟩],
    returnTypes := [.i64], usedRegisterNames := [], sideEffects := 1,
    callCount := 0, noParameterCheck := true, canInline := false }

/-- Modelled from the spec: the missing `BuiltinFunctions` table. -/
def builtinFunction : String → Option Function
  | "print" => some printBuiltin
  | "store" => some storeBuiltin
  | "syscall" => some syscallBuiltin
  | _ => none

/-- Modelled from the spec: the missing `PolymorphName` — the mangled key
`name|arity` used for user functions; builtin names are not mangled. -/
def polymorphName (name : String) (argCount : Nat) : String :=
  if (builtinFunction name).isSome then name
  else name ++ "|" ++ toString argCount

/-- Look up a function in the environment's table by mangled name. -/
def lookupEnv (env : List (String × Function)) (name : String) : Option Function :=
  (env.find? (fun e => e.1 = name)).map (fun e => e.2)

/-- Function resolution at a call site (`CallExpression` lines 100-111):
first the user-function table, then the builtin table; the boolean is the
`isBuiltin` flag. -/
def resolveFunction (env : List (String × Function)) (name : String) :
    Option (Function × Bool) :=
  match lookupEnv env name with
  | some f => some (f, false)
  | none => (builtinFunction name).map (fun f => (f, true))

/-- `AfterCall` increments the callee's `CallCount`; the callee's record
lives in the environment table. -/
def incrementCallCount (env : List (String × Function)) (name : String) :
    List (String × Function) :=
  env.map (fun e => if e.2.name = name then (e.1, { e.2 with callCount := e.2.callCount + 1 }) else e)

/-- The register-save scan of `BeforeCall` (lines 216-231): for each register
name in the callee's clobber set, skip it when it is free; otherwise its
user is asserted to be a `*Variable` (a failing assertion is a Go runtime
panic), and the variable is skipped when it dies before
`InstructionEndPosition()`; the survivors are collected in scan order. -/
def determinePushRegisters (regs : List (RegName × RegUser)) (instructionEnd : Nat) :
    List RegName → Outcome (List RegName)
  | [] => .ok []
  | registerName :: rest =>
      match lookupReg regs registerName with
      | none => determinePushRegisters regs instructionEnd rest
      | some (.variable _ aliveUntil) =>
          if aliveUntil < instructionEnd then
            determinePushRegisters regs instructionEnd rest
          else
            match determinePushRegisters regs instructionEnd rest with
            | .ok l => .ok (registerName :: l)
            | .error e => .error e
            | .panic m => .panic m
            | .outOfFuel => .outOfFuel
      | some _ => .panic "interface conversion"

/-- `printLn` (lines 320-328): append a newline, intern the string, and emit
the Linux `write` syscall sequence into syscall registers 0 to 3. -/
def printLn (st : State) (text : String) : State × List Event :=
  let text := text ++ "\n"
  let (address, pool) := addString st.strings text
  let st := { st with strings := pool }
  (st,
   [.instr (.movRegisterNumber (syscallRegisterList.getD 0 "rax") sysWrite),
    .instr (.movRegisterNumber (syscallRegisterList.getD 1 "rdi") 1),
    .instr (.movRegisterAddress (syscallRegisterList.getD 2 "rsi") address),
    .instr (.movRegisterNumber (syscallRegisterList.getD 3 "rdx") text.length),
    .instr .syscallInstr])

/-- The skip-the-move check of the `BeforeCall` argument loop (lines
253-260): when the argument is a leaf identifier bound to a variable that
already lives in the call register, the move is skipped entirely. -/
def alreadyInCallRegister (st : State) (parameter : Expr) (callRegister : RegName) :
    Option Variable :=
  if parameter.isLeaf = true ∧ parameter.tok.kind = .identifier then
    match scopesGet st.scopes parameter.tok.text with
    | some v => if v.register = some callRegister then some v else none
    | none => none
  else none

/-- `AfterCall` (lines 305-317): increment the callee's `CallCount`, restore
the saved registers from the stack in reverse push order, and free the
call registers. -/
def afterCall (function : Function) (pushedRegisters callRegisters : List RegName)
    (st : State) : State × List Event :=
  let st := { st with environment := incrementCallCount st.environment function.name }
  let popEvents := pushedRegisters.reverse.map (fun r => Event.instr (.pop r))
  let st := { st with regs := callRegisters.foldl (fun rs r => freeReg rs r) st.regs }
  (st, popEvents)

mutual

/-- `CallExpression` (lines 97-205): resolve the mangled name in the user
table and then the builtins; propagate the callee's side effects to the
compiling function; check the parameter count unless the callee opts out;
dispatch the `print` and `store` builtins; otherwise run `BeforeCall`, emit
`syscall`, an inlined body, or `call`, run `AfterCall`, and claim the
return-value register for the expression, moving the result when the
expression's register differs. Returns the expression's resolved type and
the events emitted, in order. -/
def callExpression (fuel : Nat) (st : State) (e : Expr) (target : Option RegName) :
    Outcome (Option Ty × State × List Event) :=
  match fuel with
  | 0 => .outOfFuel
  | fuel + 1 =>
      match e with
      | .node tok parameters =>
        let functionName := polymorphName tok.text parameters.length
        match resolveFunction st.environment functionName with
        | none => .error (.unknownFunction functionName)
        | some (function, isBuiltin) =>
          let sideEffectEvents : List Event :=
            if function.sideEffects > 0 then [.sideEffectIncrement] else []
          let st :=
            if function.sideEffects > 0 then
              { st with functionSideEffects := st.functionSideEffects + 1 }
            else st
          if function.noParameterCheck = false ∧
              parameters.length ≠ function.parameters.length then
            .error (.parameterCount function.name parameters.length function.parameters.length)
          else if isBuiltin = true ∧ functionName = BuiltinPrint then
            match parameters.head? with
            | none => .panic "index out of range"
            | some parameter =>
              if parameter.tok.kind ≠ .text then
                .error (.textParameterExpected function.name parameter.tok.text)
              else
                let (st, ev) := printLn st parameter.tok.text
                .ok (none, st, sideEffectEvents ++ ev)
          else if isBuiltin = true ∧ functionName = BuiltinStore then
            match parameters with
            | p0 :: p1 :: p2 :: p3 :: _ =>
              let variableName := p0.tok.text
              let offset := atoi p1.tok.text
              let byteCount := atoi p2.tok.text
              let value := atoi p3.tok.text
              match scopesGet st.scopes variableName with
              | none => .panic "runtime error: invalid memory address or nil pointer dereference"
              | some storedVariable =>
                let st := { st with scopes := scopesMarkUsed st.scopes variableName }
                match storedVariable.register with
                | none => .panic "runtime error: invalid memory address or nil pointer dereference"
                | some r =>
                    .ok (none, st,
                         sideEffectEvents ++ [.instr (.storeNumber r offset byteCount value)])
            | _ => .panic "index out of range"
          else
            match beforeCall fuel st function parameters with
            | .outOfFuel => .outOfFuel
            | .error err => .error err
            | .panic m => .panic m
            | .ok ((pushRegisters, callRegisters), st, evBefore) =>
              let callEvent : Event :=
                if functionName = BuiltinSyscall then .instr .syscallInstr
                else if function.canInline then .instr (.inlined functionName)
                else .instr (.callLabel functionName)
              let (st, evAfter) := afterCall function pushRegisters callRegisters st
              let returnValueRegister := returnValueRegisterList.headD "rax"
              match useRegChecked st.regs returnValueRegister .expression with
              | .error err => .error err
              | .panic m => .panic m
              | .outOfFuel => .outOfFuel
              | .ok regs =>
                let st := { st with regs := regs }
                let moved : State × List Event :=
                  match target with
                  | some t =>
                    if t = returnValueRegister then (st, [])
                    else ({ st with regs := freeReg st.regs returnValueRegister },
                          [.instr (.movRegisterRegister t returnValueRegister)])
                  | none => ({ st with regs := freeReg st.regs returnValueRegister }, [])
                let (st, evMove) := moved
                .ok (function.returnTypes.head?, st,
                     sideEffectEvents ++ evBefore ++ [callEvent] ++ evAfter ++ evMove)

/-- `BeforeCall` (lines 208-302): wait for the callee's compilation, scan its
clobber set for registers to save, emit the pushes, choose the ABI register
list, and move the arguments into their registers. Returns the push list
and the chosen ABI list. -/
def beforeCall (fuel : Nat) (st : State) (function : Function) (parameters : List Expr) :
    Outcome ((List RegName × List RegName) × State × List Event) :=
  match fuel with
  | 0 => .outOfFuel
  | fuel + 1 =>
      match determinePushRegisters st.regs st.instructionEnd function.usedRegisterNames with
      | .error err => .error err
      | .panic m => .panic m
      | .outOfFuel => .outOfFuel
      | .ok pushRegisters =>
        let pushEvents := pushRegisters.map (fun r => Event.instr (.push r))
        let callRegisters :=
          if function.name = BuiltinSyscall then syscallRegisterList else callRegisterList
        match beforeCallLoop fuel st function callRegisters parameters 0 with
        | .error err => .error err
        | .panic m => .panic m
        | .outOfFuel => .outOfFuel
        | .ok (st, evMoves) =>
            .ok ((pushRegisters, callRegisters), st,
                 Event.wait function.name :: pushEvents ++ evMoves)

/-- The argument loop of `BeforeCall` (lines 248-299): for argument `i`, skip
the move when it is a leaf identifier already bound to `ABI[i]`; otherwise
relocate the register's current user (panicking when it is not a variable),
claim the register for the declared parameter, evaluate the argument into
it, and check the resulting type unless the callee opts out. -/
def beforeCallLoop (fuel : Nat) (st : State) (function : Function)
    (callRegisters : List RegName) (parameters : List Expr) (i : Nat) :
    Outcome (State × List Event) :=
  match fuel with
  | 0 => .outOfFuel
  | fuel + 1 =>
      match parameters with
      | [] => .ok (st, [])
      | parameter :: rest =>
        match callRegisters.get? i with
        | none => .panic "index out of range"
        | some callRegister =>
          match alreadyInCallRegister st parameter callRegister with
          | some v =>
            let st := { st with scopes := scopesMarkUsed st.scopes v.name }
            beforeCallLoop fuel st function callRegisters rest (i + 1)
          | none =>
            let relocated : Outcome (State × List Event) :=
              match lookupReg st.regs callRegister with
              | none => .ok (st, [])
              | some user =>
                match findFreeRegister st.regs with
                | none => .error .exceededMaxVariables
                | some freeRegister =>
                  match user with
                  | .variable vname aliveUntil =>
                    let regs := (freeRegister, RegUser.variable vname aliveUntil) :: st.regs
                    let st := { st with
                                regs := freeReg regs callRegister,
                                scopes := scopesSetRegister st.scopes vname freeRegister }
                    .ok (st, [Event.instr (.movRegisterRegister freeRegister callRegister)])
                  | _ => .panic "This should never happen"
            match relocated with
            | .error err => .error err
            | .panic m => .panic m
            | .outOfFuel => .outOfFuel
            | .ok (st, evRelocate) =>
              match function.parameters.get? i with
              | none => .panic "index out of range"
              | some param =>
                let st := { st with regs := useRegIgnore st.regs callRegister (.parameter param) }
                match expressionToRegister fuel st parameter callRegister with
                | .error err => .error err
                | .panic m => .panic m
                | .outOfFuel => .outOfFuel
                | .ok (typ, st, evEval) =>
                  if function.noParameterCheck = false ∧ typ ≠ some param.type then
                    .error (.invalidType (typeNameOpt typ) (typeName param.type) param.name)
                  else
                    match beforeCallLoop fuel st function callRegisters rest (i + 1) with
                    | .error err => .error err
                    | .panic m => .panic m
                    | .outOfFuel => .outOfFuel
                    | .ok (st, evRest) => .ok (st, evRelocate ++ evEval ++ evRest)

/-- Modelled from the spec: the missing `ExpressionToRegister` — single-pass
evaluation of an expression into a specific register. A number leaf loads
an immediate (spec default integer type `Int64`); a text leaf interns the
literal and loads its address; an identifier leaf reads the bound variable,
moving it when it lives elsewhere (the `mov r, r` peephole suppresses the
degenerate move); a call node is compiled by `CallExpression` with the
target as the expression's result register. Other forms are outside the
embedded fragment and fail with `UnknownExpression`. -/
def expressionToRegister (fuel : Nat) (st : State) (e : Expr) (target : RegName) :
    Outcome (Option Ty × State × List Event) :=
  match fuel with
  | 0 => .outOfFuel
  | fuel + 1 =>
      match e with
      | .node tok children =>
        match children with
        | [] =>
          match tok.kind with
          | .number =>
              .ok (some .i64, st, [.instr (.movRegisterNumber target (atoi tok.text))])
          | .text =>
              let (addr, pool) := addString st.strings tok.text
              .ok (some .text, { st with strings := pool },
                   [.instr (.movRegisterAddress target addr)])
          | .identifier =>
              match scopesGet st.scopes tok.text with
              | none => .error (.unknownIdentifier tok.text)
              | some v =>
                let st := { st with scopes := scopesMarkUsed st.scopes tok.text }
                match v.register with
                | none => .panic "runtime error: invalid memory address or nil pointer dereference"
                | some r =>
                  if r = target then .ok (some v.type, st, [])
                  else .ok (some v.type, st, [.instr (.movRegisterRegister target r)])
          | _ => .error .unknownExpression
        | _ :: _ =>
          if tok.kind = .identifier then
            callExpression fuel st (.node tok children) (some target)
          else
            .error .unknownExpression

end

/-- `token.Index`: the position of the first token of the given kind. -/
def tokenIndex (tokens : List Token) (kind : TokenKind) : Option Nat :=
  tokens.findIdx? (fun t => t.kind = kind)

/-- Modelled from the spec: the missing `TokensToRegister` — evaluation of a
token expression into a register, abstracted as one opaque evaluation
instruction; the register is claimed for the transient value. -/
def tokensToRegister (st : State) (tokens : List Token) (register : RegName) :
    State × List Event :=
  ({ st with regs := useRegIgnore st.regs register .expression },
   [.instr (.evalTokens register tokens)])

/-- Modelled from the spec: the missing `AssignVariable` — an assignment
statement `IDENT = EXPR` binds a fresh variable to a free general register
and evaluates the right-hand side into it; a token list that is not of that
shape fails with `UnknownExpression`, and a full register file fails with
`ExceededMaxVariables`. -/
def assignVariable (st : State) (tokens : List Token) :
    Outcome (Variable × State × List Event) :=
  match tokens with
  | tx :: teq :: rhs =>
      if tx.kind = .identifier ∧ teq.kind = .operator ∧ teq.text = "=" ∧ rhs ≠ [] then
        match findFreeRegister st.regs with
        | none => .error .exceededMaxVariables
        | some register =>
          let v : Variable :=
            { name := tx.text, register := some register,
              aliveUntil := st.instructionEnd, type := .i64, used := false }
          let st := { st with
                      regs := useRegIgnore st.regs register (.variable v.name v.aliveUntil),
                      scopes :=
                        match st.scopes with
                        | [] => [[v]]
                        | s :: rest => (v :: s) :: rest }
          .ok (v, st, [.instr (.evalTokens register rhs)])
      else .error .unknownExpression
  | _ => .error .unknownExpression

/-- Modelled from the spec: the missing `CompareExpression` — emit the loop
start label, evaluate the limit tokens into a fresh temporary register, and
compare the counter against it; returns the temporary register. -/
def compareExpression (st : State) (register : RegName) (tokens : List Token)
    (labelStart : String) : Outcome ((Option RegName) × State × List Event) :=
  match findFreeRegister st.regs with
  | none => .error .exceededMaxVariables
  | some temporary =>
    let st := { st with regs := useRegIgnore st.regs temporary .expression }
    .ok (some temporary, st,
         [.instr (.addLabel labelStart),
          .instr (.evalTokens temporary tokens),
          .instr (.cmpRegisterRegister register temporary)])

/-- Modelled from the spec: `scopes.Pop` — close the innermost scope,
reporting the first variable never read and releasing the registers of the
scope's variables. -/
def popScope (st : State) : Outcome State :=
  match st.scopes with
  | [] => .panic "index out of range"
  | s :: rest =>
      match s.find? (fun v => v.used = false) with
      | some v => .error (.variableUnused v.name)
      | none =>
          .ok { st with
                scopes := rest,
                regs := s.foldl
                  (fun rs v => match v.register with
                    | some r => freeReg rs r
                    | none => rs) st.regs }

/-- `ForStart` (`For.go` lines 26-97): push a scope, require a `..` token,
evaluate the start — anonymously into a free register when no operator
token occurs in the header, otherwise as an assignment —, allocate the loop
labels `for_N` and `for_N_end`, require a non-empty limit, compare against
it, and jump to the end label on equality. -/
def forStart (st : State) (tokens : List Token) : Outcome (State × List Event) :=
  let st := { st with scopes := [] :: st.scopes }
  let expression := tokens.drop 1
  match tokenIndex expression .range with
  | none => .error .missingRange
  | some rangePos =>
    let operatorPos := tokenIndex expression .operator
    let startOutcome : Outcome (RegName × State × List Event) :=
      match operatorPos with
      | none =>
        let start := expression.take rangePos
        if start = [] then .error .missingRangeStart
        else
          match findFreeRegister st.regs with
          | none => .error .exceededMaxVariables
          | some register =>
            let (st, ev) := tokensToRegister st start register
            .ok (register, st, ev)
      | some _ =>
        let assignment := expression.take rangePos
        match assignVariable st assignment with
        | .error err => .error err
        | .panic m => .panic m
        | .outOfFuel => .outOfFuel
        | .ok (v, st, ev) =>
          match v.register with
          | none => .panic "runtime error: invalid memory address or nil pointer dereference"
          | some register => .ok (register, st, ev)
    match startOutcome with
    | .error err => .error err
    | .panic m => .panic m
    | .outOfFuel => .outOfFuel
    | .ok (register, st, evStart) =>
      let st := { st with forCounter := st.forCounter + 1 }
      let labelStart := "for_" ++ toString st.forCounter
      let labelEnd := "for_" ++ toString st.forCounter ++ "_end"
      let upperLimit := expression.drop (rangePos + 1)
      if upperLimit = [] then .error .missingRangeLimit
      else
        match compareExpression st register upperLimit labelStart with
        | .error err => .error err
        | .panic m => .panic m
        | .outOfFuel => .outOfFuel
        | .ok (temporary, st, evCompare) =>
          let st := { st with
                      forStack := st.forStack ++
                        [{ labelStart := labelStart, labelEnd := labelEnd,
                           counter := register, limit := temporary }] }
          .ok (st, evStart ++ evCompare ++ [.instr (.jumpIfEqual labelEnd)])

/-- `ForEnd` (`For.go` lines 100-120): pop the scope, take the innermost
loop off the stack, increment the counter, jump back to the start label,
place the end label, and free the counter and limit registers. -/
def forEnd (st : State) : Outcome (State × List Event) :=
  match popScope st with
  | .error err => .error err
  | .panic m => .panic m
  | .outOfFuel => .outOfFuel
  | .ok st =>
    match st.forStack.getLast? with
    | none => .panic "index out of range"
    | some loop =>
      let st := { st with forStack := st.forStack.dropLast }
      let st := { st with regs := freeReg st.regs loop.counter }
      let st :=
        match loop.limit with
        | some l => { st with regs := freeReg st.regs l }
        | none => st
      .ok (st,
           [.instr (.increaseRegister loop.counter),
            .instr (.jump loop.labelStart),
            .instr (.addLabel loop.labelEnd)])

/-- One item of the final linked output: a prologue instruction or the body
of a compiled function. -/
inductive OutputItem where
  | instr (i : Instr)
  | functionBody (name : String) (callCount : Nat)
  deriving DecidableEq, Repr

/-- `Build.Compile` (`Build.go` lines 59-124): fail when `main` is undefined;
synthesize the prologue `call main; exit 0`; then — when an executable is
written — concatenate the bodies of the compiled functions, skipping every
function whose `CallCount` is zero. The channel drain and the `Verify`
label check before writing are outside the embedded fragment; `results` is
the drained list of compiled functions. -/
def compileBuild (mainExists : Bool) (writeExecutable : Bool) (results : List Function) :
    Except String (Option (List OutputItem)) :=
  if mainExists = false then
    .error "Function 'main' has not been defined"
  else
    let finalCode : List OutputItem :=
      [.instr (.callLabel "main"), .instr (.exit 0)]
    if writeExecutable = false then
      .ok none
    else
      .ok (some (finalCode ++
        (results.filter (fun f => f.callCount ≠ 0)).map
          (fun f => .functionBody f.name f.callCount)))

/-- The emitted instructions of an event list, in order. -/
def eventsInstrs (ev : List Event) : List Instr :=
  ev.filterMap (fun e => match e with | .instr i => some i | _ => none)

/-- A machine state for executing an emitted instruction sequence: program,
program counter, register values, the equality flag of the last compare,
and a counter of executed `bodyMarker` instructions. -/
structure Machine where
  program : List Instr
  pc : Nat
  registerValues : List (RegName × Nat)
  equalFlag : Bool
  bodyCount : Nat
  deriving DecidableEq, Repr

/-- The value of a register in a machine state (0 when never written). -/
def regValue (m : Machine) (r : RegName) : Nat :=
  ((m.registerValues.find? (fun e => e.1 = r)).map (fun e => e.2)).getD 0

/-- Write a register value. -/
def setRegValue (m : Machine) (r : RegName) (n : Nat) : Machine :=
  { m with registerValues := (r, n) :: m.registerValues.filter (fun e => ¬ e.1 = r) }

/-- The position of a label in a program. -/
def findLabel (program : List Instr) (l : String) : Option Nat :=
  program.findIdx? (fun i =>
    match i with
    | .addLabel l2 => l2 = l
    | _ => false)

/-- The value computed by the abstract evaluation instruction: a single
number token evaluates to its value. -/
def evalTokensValue (tokens : List Token) : Nat :=
  match tokens with
  | [t] => if t.kind = .number then atoi t.text else 0
  | _ => 0

/-- One execution step of the x86-64 fragment the loop code uses: immediate
evaluation, compare (setting the equality flag), conditional and
unconditional jumps to labels, increment, and the body marker; all other
instructions only advance. Execution past the program end halts. -/
def stepMachine (m : Machine) : Machine :=
  match m.program.get? m.pc with
  | none => m
  | some instr =>
      match instr with
      | .evalTokens r toks =>
          { setRegValue m r (evalTokensValue toks) with pc := m.pc + 1 }
      | .cmpRegisterRegister a b =>
          { m with equalFlag := decide (regValue m a = regValue m b), pc := m.pc + 1 }
      | .jumpIfEqual l =>
          if m.equalFlag then
            { m with pc := (findLabel m.program l).getD m.program.length }
          else { m with pc := m.pc + 1 }
      | .jump l => { m with pc := (findLabel m.program l).getD m.program.length }
      | .increaseRegister r => { setRegValue m r (regValue m r + 1) with pc := m.pc + 1 }
      | .bodyMarker => { m with bodyCount := m.bodyCount + 1, pc := m.pc + 1 }
      | _ => { m with pc := m.pc + 1 }

/-- Run the machine for the given number of steps. -/
def runMachine : Nat → Machine → Machine
  | 0, m => m
  | n + 1, m => runMachine n (stepMachine m)

/-- A fresh per-function compile state: no used registers, no scopes, empty
string pool, and a given function table. -/
def initialState (env : List (String × Function)) : State :=
  { regs := [], scopes := [], strings := [], environment := env,
    functionSideEffects := 0, instructionEnd := 0, forCounter := 0, forStack := [] }

/-! Concrete fixtures used for counterexamples and witnesses. -/

/-- The header tokens of the loop `for 0..0`. -/
def loopZeroTokens : List Token :=
  [⟨.keyword, "for"⟩, ⟨.number, "0"⟩, ⟨.range, ".."⟩, ⟨.number, "0"⟩]

/-- The instruction sequence emitted for `for 0..0` with a one-marker body:
loop header, body marker, loop footer. -/
def loopZeroProgram : List Instr :=
  match forStart (initialState []) loopZeroTokens with
  | .ok (st, evStart) =>
      match forEnd st with
      | .ok (_, evEnd) => eventsInstrs evStart ++ [.bodyMarker] ++ eventsInstrs evEnd
      | _ => []
  | _ => []

/-- Load a program into a fresh machine. -/
def machineFor (program : List Instr) : Machine :=
  { program := program, pc := 0, registerValues := [], equalFlag := false, bodyCount := 0 }

/-- A user function of two integer parameters. -/
def fFn : Function :=
  { name := "f|2", parameters := [⟨"a", .i64⟩, ⟨"b", .i64⟩], returnTypes := [],
    usedRegisterNames := [], sideEffects := 0, callCount := 0,
    noParameterCheck := false, canInline := false }

/-- A user function of one integer parameter returning an integer. -/
def gFn : Function :=
  { name := "g|1", parameters := [⟨"y", .i64⟩], returnTypes := [.i64],
    usedRegisterNames := [], sideEffects := 0, callCount := 0,
    noParameterCheck := false, canInline := false }

/-- An environment with `f` (arity 2) and `g` (arity 1). -/
def envFG : List (String × Function) := [("f|2", fFn), ("g|1", gFn)]

/-- The call expression `f(1, g(2))`: a call nested in argument position. -/
def nestedCallExpr : Expr :=
  .node ⟨.identifier, "f"⟩
    [.node ⟨.number, "1"⟩ [], .node ⟨.identifier, "g"⟩ [.node ⟨.number, "2"⟩ []]]

/-- A side-effecting user function of no parameters. -/
def uFn : Function :=
  { name := "u|0", parameters := [], returnTypes := [], usedRegisterNames := [],
    sideEffects := 1, callCount := 0, noParameterCheck := false, canInline := false }

/-- A user function with no parameters clobbering `rbx`, `rcx` and `rdx`. -/
def hFn : Function :=
  { name := "h|0", parameters := [], returnTypes := [],
    usedRegisterNames := ["rbx", "rcx", "rdx"], sideEffects := 0, callCount := 0,
    noParameterCheck := false, canInline := false }

/-- A caller state for `hFn`: variable `a` in `rbx` lives past the call
statement (10 at least 5), variable `b` in `rcx` dies inside it (3 below 5),
and `rdx` is free. -/
def stC1 : State :=
  { initialState [("h|0", hFn)] with
    regs := [("rbx", .variable "a" 10), ("rcx", .variable "b" 3)],
    scopes := [[{ name := "a", register := some "rbx", aliveUntil := 10,
                  type := .i64, used := false },
                { name := "b", register := some "rcx", aliveUntil := 3,
                  type := .i64, used := false }]],
    instructionEnd := 5 }

/-- A user function expecting one `Int64` parameter. -/
def f1Fn : Function :=
  { name := "f1|1", parameters := [⟨"x", .i64⟩], returnTypes := [],
    usedRegisterNames := [], sideEffects := 0, callCount := 0,
    noParameterCheck := false, canInline := false }

/-- A caller state holding the text variable `s` in `rdi`, the first
call-ABI register. -/
def stSkip : State :=
  { initialState [("f1|1", f1Fn)] with
    regs := [("rdi", .variable "s" 10)],
    scopes := [[{ name := "s", register := some "rdi", aliveUntil := 10,
                  type := .text, used := false }]],
    instructionEnd := 5 }

/-- The call expression `f1(s)`. -/
def f1CallExpr : Expr :=
  .node ⟨.identifier, "f1"⟩ [.node ⟨.identifier, "s"⟩ []]

/-- The call expression `store(v, 0, 8, 1)`. -/
def storeCallExpr : Expr :=
  .node ⟨.identifier, "store"⟩
    [.node ⟨.identifier, "v"⟩ [], .node ⟨.number, "0"⟩ [],
     .node ⟨.number, "8"⟩ [], .node ⟨.number, "1"⟩ []]

/-- All variables in all scopes, innermost first. -/
def allScopeVariables (scopes : List (List Variable)) : List Variable :=
  scopes.foldr (fun s acc => s ++ acc) []

/-- The events of a successful call compilation (empty otherwise). -/
def Outcome.eventsOf : Outcome (Option Ty × State × List Event) → List Event
  | .ok (_, _, ev) => ev
  | _ => []

/-- A compiled `main` that the entry prologue reaches. -/
def mainFn : Function :=
  { name := "main", parameters := [], returnTypes := [], usedRegisterNames := [],
    sideEffects := 1, callCount := 1, noParameterCheck := false, canInline := false }

/-- A compiled function nothing calls. -/
def deadFn : Function :=
  { name := "dead|0", parameters := [], returnTypes := [], usedRegisterNames := [],
    sideEffects := 0, callCount := 0, noParameterCheck := false, canInline := false }

/-! Helper lemmas about the register map and scope stack. -/

theorem lookupReg_cons (regs : List (RegName × RegUser)) (x r : RegName) (u : RegUser) :
    lookupReg ((x, u) :: regs) r = if x = r then some u else lookupReg regs r := by
  by_cases h : x = r <;> simp [lookupReg, List.find?_cons, h]

theorem lookupReg_freeReg (regs : List (RegName × RegUser)) (x r : RegName) :
    lookupReg (freeReg regs x) r = if x = r then none else lookupReg regs r := by
  induction regs with
  | nil => by_cases h : x = r <;> simp [lookupReg, freeReg, h]
  | cons e rest ih =>
      obtain ⟨y, v⟩ := e
      by_cases hyx : y = x
      · subst hyx
        by_cases h : y = r
        · subst h
          simpa [freeReg, lookupReg_cons] using ih
        · simpa [freeReg, h, lookupReg_cons] using ih
      · rw [show freeReg ((y, v) :: rest) x = (y, v) :: freeReg rest x from by
              simp [freeReg, hyx],
            lookupReg_cons, lookupReg_cons, ih]
        by_cases hxr : x = r
        · have hyr : ¬ y = r := by rw [← hxr]; exact hyx
          simp [hxr, hyr]
        · simp [hxr]

theorem findFreeRegister_lookup {regs : List (RegName × RegUser)} {r : RegName}
    (h : findFreeRegister regs = some r) : lookupReg regs r = none := by
  have := List.find?_some h
  simpa [Option.isNone_iff_eq_none] using this

theorem mem_eventsOf_get (ev : List Event) : ev.get? 0 = ev.head? := by
  cases ev <;> rfl

theorem determinePushRegisters_ok_iff :
    ∀ (clobbers : List RegName) (regs : List (RegName × RegUser)) (instructionEnd : Nat)
      (L : List RegName),
      determinePushRegisters regs instructionEnd clobbers = .ok L →
      ∀ r, r ∈ L ↔ r ∈ clobbers ∧
        ∃ n a, lookupReg regs r = some (.variable n a) ∧ instructionEnd ≤ a := by
  intro clobbers
  induction clobbers with
  | nil =>
      intro regs instructionEnd L h r
      simp only [determinePushRegisters, Outcome.ok.injEq] at h
      subst h
      simp
  | cons c rest ih =>
      intro regs instructionEnd L h r
      simp only [determinePushRegisters] at h
      rcases hl : lookupReg regs c with _ | u
      · rw [hl] at h
        rw [ih regs instructionEnd L h r]
        constructor
        · rintro ⟨hr, hx⟩
          exact ⟨List.mem_cons_of_mem _ hr, hx⟩
        · rintro ⟨hr, n, a, hla, hge⟩
          rcases List.mem_cons.mp hr with rfl | hr
          · rw [hl] at hla
            exact absurd hla (by simp)
          · exact ⟨hr, n, a, hla, hge⟩
      · rcases u with ⟨n, a⟩ | ⟨p⟩ | ⟨⟩
        · simp only [hl] at h
          by_cases hlt : a < instructionEnd
          · rw [if_pos hlt] at h
            rw [ih regs instructionEnd L h r]
            constructor
            · rintro ⟨hr, hx⟩
              exact ⟨List.mem_cons_of_mem _ hr, hx⟩
            · rintro ⟨hr, n2, a2, hla, hge⟩
              rcases List.mem_cons.mp hr with rfl | hr
              · rw [hl] at hla
                injection hla with hla
                injection hla with hn ha
                omega
              · exact ⟨hr, n2, a2, hla, hge⟩
          · rw [if_neg hlt] at h
            rcases hrest : determinePushRegisters regs instructionEnd rest with
              L2 | e | m | _
            · simp only [hrest, Outcome.ok.injEq] at h
              subst h
              rw [List.mem_cons]
              constructor
              · rintro (rfl | hr)
                · exact ⟨List.mem_cons_self _ _, n, a, hl, by omega⟩
                · obtain ⟨h1, h2⟩ := (ih regs instructionEnd L2 hrest r).mp hr
                  exact ⟨List.mem_cons_of_mem _ h1, h2⟩
              · rintro ⟨hr, n2, a2, hla, hge⟩
                rcases List.mem_cons.mp hr with rfl | hr
                · exact Or.inl rfl
                · exact Or.inr ((ih regs instructionEnd L2 hrest r).mpr ⟨hr, n2, a2, hla, hge⟩)
            · simp [hrest] at h
            · simp [hrest] at h
            · simp [hrest] at h
        · simp only [hl] at h
          exact Outcome.noConfusion h
        · simp only [hl] at h
          exact Outcome.noConfusion h

theorem beforeCall_ok_inversion :
    ∀ (fuel : Nat) (st : State) (fn : Function) (params : List Expr)
      (pushL cregs : List RegName) (st2 : State) (ev : List Event),
      beforeCall fuel st fn params = .ok ((pushL, cregs), st2, ev) →
      determinePushRegisters st.regs st.instructionEnd fn.usedRegisterNames = .ok pushL ∧
      ∃ evMoves, ev = Event.wait fn.name ::
        (pushL.map (fun r => Event.instr (.push r)) ++ evMoves) := by
  intro fuel st fn params pushL cregs st2 ev h
  cases fuel with
  | zero => exact Outcome.noConfusion h
  | succ fuel =>
      simp only [beforeCall] at h
      rcases hdet : determinePushRegisters st.regs st.instructionEnd fn.usedRegisterNames with
        L | e | m | _
      · simp only [hdet] at h
        rcases hloop : beforeCallLoop fuel st fn
            (if fn.name = BuiltinSyscall then syscallRegisterList else callRegisterList)
            params 0 with ⟨st3, evM⟩ | e | m | _
        · simp only [hloop, Outcome.ok.injEq, Prod.mk.injEq] at h
          obtain ⟨⟨h1, h2⟩, h3, h4⟩ := h
          subst h1
          subst h4
          exact ⟨rfl, evM, rfl⟩
        · simp [hloop] at h
        · simp [hloop] at h
        · simp [hloop] at h
      · simp [hdet] at h
      · simp [hdet] at h
      · simp [hdet] at h

/-- `C1`: at a call site, `BeforeCall` pushes exactly those clobbered
registers currently held by a variable whose liveness reaches past the end
of the call statement — free registers and registers of variables dying
inside the statement are not pushed — the pushes are emitted directly after
the wait, and `AfterCall` pops exactly the pushed registers in exact
reverse order. -/
theorem c1_push_pop_discipline :
    ∀ (fuel : Nat) (st : State) (fn : Function) (params : List Expr)
      (pushL cregs : List RegName) (st2 : State) (ev : List Event),
      beforeCall fuel st fn params = .ok ((pushL, cregs), st2, ev) →
      (∀ r, r ∈ pushL ↔ r ∈ fn.usedRegisterNames ∧
          ∃ n a, lookupReg st.regs r = some (.variable n a) ∧ st.instructionEnd ≤ a) ∧
      (∃ evMoves, ev = Event.wait fn.name ::
          (pushL.map (fun r => Event.instr (.push r)) ++ evMoves)) ∧
      (afterCall fn pushL cregs st2).2 =
        pushL.reverse.map (fun r => Event.instr (.pop r)) := by
  intro fuel st fn params pushL cregs st2 ev h
  obtain ⟨hdet, hev⟩ := beforeCall_ok_inversion fuel st fn params pushL cregs st2 ev h
  exact ⟨determinePushRegisters_ok_iff _ _ _ _ hdet, hev, rfl⟩

/-- `C1` witness: calling `hFn` (clobbering `rbx`, `rcx`, `rdx`) from `stC1`
pushes exactly `rbx` — the live variable's register — and the pop list is
its reverse. -/
theorem c1_push_pop_discipline_witness :
    ("rbx" ∈ hFn.usedRegisterNames ∧
      ∃ n a, lookupReg stC1.regs "rbx" = some (.variable n a) ∧
        stC1.instructionEnd ≤ a) ∧
    (afterCall hFn ["rbx"] callRegisterList stC1).2 = [Event.instr (.pop "rbx")] := by
  obtain ⟨h1, h2, h3⟩ :=
    c1_push_pop_discipline 2 stC1 hFn [] ["rbx"] callRegisterList stC1
      [Event.wait "h|0", Event.instr (.push "rbx")] rfl
  refine ⟨(h1 "rbx").mp (by simp), ?_⟩
  simpa using h3

/-- `C3`: every function present in the final output has `CallCount > 0` (so
in particular `CallCount > 0` or it is `main`), functions whose `CallCount`
is zero after the drain are omitted, the synthesized prologue
`call main; exit 0` precedes every function body, and a missing `main`
aborts compilation. -/
theorem c3_callcount_gate :
    (∀ (we : Bool) (results : List Function),
        compileBuild false we results = .error "Function 'main' has not been defined") ∧
    (∀ (results : List Function) (output : List OutputItem),
        compileBuild true true results = .ok (some output) →
        output.take 2 = [.instr (.callLabel "main"), .instr (.exit 0)] ∧
        (∀ item ∈ output.drop 2, ∃ f, f ∈ results ∧
            item = OutputItem.functionBody f.name f.callCount ∧
            (0 < f.callCount ∨ f.name = "main")) ∧
        (∀ f, f ∈ results → f.callCount = 0 →
            OutputItem.functionBody f.name f.callCount ∉ output) ∧
        (∀ (n : Nat) (nm : String) (c : Nat),
            output.get? n = some (OutputItem.functionBody nm c) → 2 ≤ n)) := by
  constructor
  · intro we results
    rfl
  · intro results output h
    simp only [compileBuild, Bool.true_eq_false, if_false, reduceIte] at h
    have h := (Except.ok.inj h)
    have h := (Option.some.inj h)
    subst h
    refine ⟨rfl, ?_, ?_, ?_⟩
    · intro item hitem
      simp only [List.cons_append, List.nil_append, List.drop_succ_cons, List.drop_zero,
        List.mem_map] at hitem
      obtain ⟨f, hf, rfl⟩ := hitem
      have hmem := List.mem_filter.mp hf
      refine ⟨f, hmem.1, rfl, Or.inl ?_⟩
      have : f.callCount ≠ 0 := by simpa using hmem.2
      omega
    · intro f hf hzero hmem
      simp only [List.cons_append, List.nil_append, List.mem_cons, List.mem_map] at hmem
      rcases hmem with h1 | h1 | h1
      · exact OutputItem.noConfusion h1
      · exact OutputItem.noConfusion h1
      · obtain ⟨g, hg, heq⟩ := h1
        have hgmem := List.mem_filter.mp hg
        have hgne : g.callCount ≠ 0 := by simpa using hgmem.2
        have : g.callCount = f.callCount := by
          injection heq
        omega
    · intro n nm c hn
      match n with
      | 0 => simp at hn
      | 1 => simp at hn
      | n + 2 => omega

/-- `C3` witness: a drained result list with a called `main` and an uncalled
function; the uncalled function's body is absent from the output. -/
theorem c3_callcount_gate_witness :
    compileBuild true true [mainFn, deadFn] =
      .ok (some [.instr (.callLabel "main"), .instr (.exit 0),
                 .functionBody "main" 1]) ∧
    OutputItem.functionBody "dead|0" 0 ∉
      [OutputItem.instr (.callLabel "main"), OutputItem.instr (.exit 0),
       OutputItem.functionBody "main" 1] := by
  constructor
  · rfl
  · exact (c3_callcount_gate.2 [mainFn, deadFn]
      [.instr (.callLabel "main"), .instr (.exit 0), .functionBody "main" 1]
      rfl).2.2.1 deadFn (by simp) rfl

/-- `C9`: a call to the builtin `store` whose first argument names a variable
bound in no enclosing scope does not yield an `UnknownIdentifier` error:
the nil scope-lookup result is dereferenced and the compile panics. -/
theorem c9_store_unknown_variable_panics :
    ∀ (fuel : Nat) (st : State) (vname off bc val : String),
      lookupEnv st.environment "store" = none →
      scopesGet st.scopes vname = none →
      callExpression (fuel + 1) st
          (.node ⟨.identifier, "store"⟩
            [.node ⟨.identifier, vname⟩ [], .node ⟨.number, off⟩ [],
             .node ⟨.number, bc⟩ [], .node ⟨.number, val⟩ []]) none =
        .panic "runtime error: invalid memory address or nil pointer dereference" := by
  intro fuel st vname off bc val h1 h2
  simp [callExpression, polymorphName, builtinFunction, resolveFunction, h1, h2,
    BuiltinPrint, BuiltinStore, storeBuiltin, Expr.tok]

/-- `C9` witness: the panic at a concrete state with `v` unbound. -/
theorem c9_store_unknown_variable_panics_witness :
    callExpression 5 (initialState []) storeCallExpr none =
      .panic "runtime error: invalid memory address or nil pointer dereference" :=
  c9_store_unknown_variable_panics 4 (initialState []) "v" "0" "8" "1" rfl rfl

/-- `C10` counterexample: compiling `f(1, g(2))` — a well-formed program with
a call in argument position — reaches the `BeforeCall` relocation branch
with a non-`Variable` register user (the enclosing call's parameter claim
on `rdi`) and panics, so the panic branch is reachable. -/
theorem c10_counterexample :
    callExpression 9 (initialState envFG) nestedCallExpr none =
      .panic "This should never happen" := by
  rfl

/-- `C8` counterexample: with an operator token in the header, an empty range
start is handed to the assignment path instead of failing with
`MissingRangeStart` (first conjunct); and an empty limit behind an empty
start fails with `MissingRangeStart`, not `MissingRangeLimit` (second
conjunct). -/
theorem c8_counterexample :
    forStart (initialState [])
        [⟨.keyword, "for"⟩, ⟨.range, ".."⟩, ⟨.identifier, "x"⟩,
         ⟨.operator, "*"⟩, ⟨.number, "2"⟩] = .error .unknownExpression ∧
    forStart (initialState []) [⟨.keyword, "for"⟩, ⟨.range, ".."⟩] =
      .error .missingRangeStart :=
  ⟨rfl, rfl⟩

theorem expressionToRegister_leaf_not_parameterCount :
    ∀ (fuel : Nat) (st : State) (e : Expr) (target : RegName),
      e.isLeaf = true →
      ∀ (f : String) (g r : Nat),
        expressionToRegister fuel st e target ≠ .error (.parameterCount f g r) := by
  intro fuel st e target hleaf f g r h
  cases fuel with
  | zero => simp [expressionToRegister] at h
  | succ fuel =>
      obtain ⟨tok, children⟩ := e
      cases children with
      | cons c cs => simp [Expr.isLeaf] at hleaf
      | nil =>
          simp only [expressionToRegister] at h
          cases htk : tok.kind
          case identifier =>
            simp only [htk] at h
            rcases hsg : scopesGet st.scopes tok.text with _ | v
            · simp [hsg] at h
            · simp only [hsg] at h
              rcases hvr : v.register with _ | r2
              · simp [hvr] at h
              · simp only [hvr] at h
                split at h <;> simp at h
          all_goals simp [htk] at h

theorem determinePushRegisters_not_error :
    ∀ (clobbers : List RegName) (regs : List (RegName × RegUser)) (ie : Nat)
      (e : CompileError), determinePushRegisters regs ie clobbers ≠ .error e := by
  intro clobbers
  induction clobbers with
  | nil => intro regs ie e h; simp [determinePushRegisters] at h
  | cons c rest ih =>
      intro regs ie e h
      simp only [determinePushRegisters] at h
      rcases hl : lookupReg regs c with _ | u
      · simp only [hl] at h
        exact ih _ _ _ h
      · rcases u with ⟨n, a⟩ | ⟨p⟩ | ⟨⟩
        · simp only [hl] at h
          split at h
          · exact ih _ _ _ h
          · rcases hrest : determinePushRegisters regs ie rest with L | e2 | m | _ <;>
              simp only [hrest] at h
            · exact Outcome.noConfusion h
            · exact ih _ _ _ hrest
            · exact Outcome.noConfusion h
            · exact Outcome.noConfusion h
        · simp only [hl] at h
          exact Outcome.noConfusion h
        · simp only [hl] at h
          exact Outcome.noConfusion h

theorem beforeCallLoop_leaf_not_parameterCount :
    ∀ (fuel : Nat) (st : State) (fn : Function) (cregs : List RegName)
      (args : List Expr) (i : Nat),
      (∀ a ∈ args, a.isLeaf = true) →
      ∀ (f : String) (g r : Nat),
        beforeCallLoop fuel st fn cregs args i ≠ .error (.parameterCount f g r) := by
  intro fuel
  induction fuel with
  | zero => intro st fn cregs args i hleaf f g r h; simp [beforeCallLoop] at h
  | succ fuel ih =>
      intro st fn cregs args i hleaf f g r h
      cases args with
      | nil => simp [beforeCallLoop] at h
      | cons a rest =>
          have hrestLeaf : ∀ x ∈ rest, x.isLeaf = true :=
            fun x hx => hleaf x (List.mem_cons_of_mem _ hx)
          have haLeaf : a.isLeaf = true := hleaf a (List.mem_cons_self _ _)
          simp only [beforeCallLoop] at h
          rcases hci : cregs.get? i with _ | creg
          · simp only [hci] at h
            exact Outcome.noConfusion h
          · simp only [hci] at h
            rcases hskip : alreadyInCallRegister st a creg with _ | v
            · simp only [hskip] at h
              rcases hlk : lookupReg st.regs creg with _ | u
              · simp only [hlk] at h
                rcases hpi : fn.parameters.get? i with _ | param
                · simp only [hpi] at h
                  exact Outcome.noConfusion h
                · simp only [hpi] at h
                  rcases hev : expressionToRegister fuel
                      { st with regs := useRegIgnore st.regs creg (.parameter param) }
                      a creg with ⟨ty, st4, ev4⟩ | e2 | m | _
                  · simp only [hev] at h
                    split at h
                    · simp at h
                    · rcases hrec : beforeCallLoop fuel st4 fn cregs rest (i + 1) with
                        ⟨st5, ev5⟩ | e3 | m | _ <;> simp only [hrec] at h
                      · exact Outcome.noConfusion h
                      · obtain rfl : e3 = .parameterCount f g r := by simpa using h
                        exact ih _ fn cregs rest (i + 1) hrestLeaf f g r hrec
                      · exact Outcome.noConfusion h
                      · exact Outcome.noConfusion h
                  · simp only [hev] at h
                    obtain rfl : e2 = .parameterCount f g r := by simpa using h
                    exact expressionToRegister_leaf_not_parameterCount fuel _ a creg
                      haLeaf f g r hev
                  · simp only [hev] at h
                    exact Outcome.noConfusion h
                  · simp only [hev] at h
                    exact Outcome.noConfusion h
              · rcases hfr : findFreeRegister st.regs with _ | fr
                · simp only [hlk, hfr] at h
                  simp at h
                · rcases u with ⟨vn, va⟩ | ⟨p⟩ | ⟨⟩
                  · simp only [hlk, hfr] at h
                    rcases hpi : fn.parameters.get? i with _ | param
                    · simp only [hpi] at h
                      exact Outcome.noConfusion h
                    · simp only [hpi] at h
                      rcases hev : expressionToRegister fuel
                          { st with
                            regs := useRegIgnore
                              (freeReg ((fr, RegUser.variable vn va) :: st.regs) creg)
                              creg (.parameter param),
                            scopes := scopesSetRegister st.scopes vn fr }
                          a creg with ⟨ty, st4, ev4⟩ | e2 | m | _
                      · simp only [hev] at h
                        split at h
                        · simp at h
                        · rcases hrec : beforeCallLoop fuel st4 fn cregs rest (i + 1) with
                            ⟨st5, ev5⟩ | e3 | m | _ <;> simp only [hrec] at h
                          · exact Outcome.noConfusion h
                          · obtain rfl : e3 = .parameterCount f g r := by simpa using h
                            exact ih _ fn cregs rest (i + 1) hrestLeaf f g r hrec
                          · exact Outcome.noConfusion h
                          · exact Outcome.noConfusion h
                      · simp only [hev] at h
                        obtain rfl : e2 = .parameterCount f g r := by simpa using h
                        exact expressionToRegister_leaf_not_parameterCount fuel _ a creg
                          haLeaf f g r hev
                      · simp only [hev] at h
                        exact Outcome.noConfusion h
                      · simp only [hev] at h
                        exact Outcome.noConfusion h
                  · simp only [hlk, hfr] at h
                    exact Outcome.noConfusion h
                  · simp only [hlk, hfr] at h
                    exact Outcome.noConfusion h
            · simp only [hskip] at h
              exact ih _ fn cregs rest (i + 1) hrestLeaf f g r h

theorem beforeCall_leaf_not_parameterCount :
    ∀ (fuel : Nat) (st : State) (fn : Function) (args : List Expr),
      (∀ a ∈ args, a.isLeaf = true) →
      ∀ (f : String) (g r : Nat),
        beforeCall fuel st fn args ≠ .error (.parameterCount f g r) := by
  intro fuel st fn args hleaf f g r h
  cases fuel with
  | zero => simp [beforeCall] at h
  | succ fuel =>
      simp only [beforeCall] at h
      rcases hdet : determinePushRegisters st.regs st.instructionEnd fn.usedRegisterNames with
        L | e | m | _ <;> rw [hdet] at h
      · rcases hloop : beforeCallLoop fuel st fn
            (if fn.name = BuiltinSyscall then syscallRegisterList else callRegisterList)
            args 0 with ⟨st3, evM⟩ | e | m | _ <;> rw [hloop] at h
        · exact Outcome.noConfusion h
        · obtain rfl : e = .parameterCount f g r := by simpa using h
          exact beforeCallLoop_leaf_not_parameterCount fuel st fn _ args 0 hleaf f g r hloop
        · exact Outcome.noConfusion h
        · exact Outcome.noConfusion h
      · exact determinePushRegisters_not_error _ _ _ _ hdet
      · exact Outcome.noConfusion h
      · exact Outcome.noConfusion h

/-- `C5`: when the resolved callee does not opt out of parameter checking
and the argument count differs from the declared parameter count, the call
fails with a `ParameterCount` error carrying the given and required counts;
and a call to the builtin `syscall` (which opts out) never produces a
`ParameterCount` error, whatever its argument count. -/
theorem c5_parameter_count_check :
    (∀ (fuel : Nat) (st : State) (tok : Token) (params : List Expr)
        (fn : Function) (isB : Bool) (target : Option RegName),
        resolveFunction st.environment (polymorphName tok.text params.length) =
          some (fn, isB) →
        fn.noParameterCheck = false →
        params.length ≠ fn.parameters.length →
        callExpression (fuel + 1) st (.node tok params) target =
          .error (.parameterCount fn.name params.length fn.parameters.length)) ∧
    (∀ (fuel : Nat) (st : State) (args : List Expr) (target : Option RegName),
        lookupEnv st.environment "syscall" = none →
        (∀ a ∈ args, a.isLeaf = true) →
        ∀ (f : String) (g r : Nat),
          callExpression fuel st (.node ⟨.identifier, "syscall"⟩ args) target ≠
            .error (.parameterCount f g r)) := by
  constructor
  · intro fuel st tok params fn isB target hres hnp hne
    simp [callExpression, hres, hnp, hne]
  · intro fuel st args target henv hleaf f g r h
    cases fuel with
    | zero => simp [callExpression] at h
    | succ fuel =>
        have hres : resolveFunction st.environment (polymorphName "syscall" args.length) =
            some (syscallBuiltin, true) := by
          simp [resolveFunction, polymorphName, builtinFunction, henv]
        simp only [callExpression, Expr.tok, hres, syscallBuiltin, BuiltinPrint,
          BuiltinStore, BuiltinSyscall, gt_iff_lt, reduceIte] at h
        split at h
        · rename_i hcond
          simp at hcond
        · split at h
          · rename_i hcond
            simp [polymorphName, builtinFunction] at hcond
          · split at h
            · rename_i hcond
              simp [polymorphName, builtinFunction] at hcond
            · split at h
              · exact Outcome.noConfusion h
              · rename_i e heq
                obtain rfl : e = .parameterCount f g r := by simpa using h
                exact beforeCall_leaf_not_parameterCount _ _ _ args hleaf f g r heq
              · exact Outcome.noConfusion h
              · split at h
                · rename_i e2 hurc
                  obtain rfl : e2 = .parameterCount f g r := by simpa using h
                  simp only [useRegChecked] at hurc
                  split at hurc <;> simp at hurc
                · exact Outcome.noConfusion h
                · exact Outcome.noConfusion h
                · exact Outcome.noConfusion h

/-- `C5` witness: `print` called with two arguments fails with
`ParameterCount{given 2, required 1}`, while a two-argument `syscall` does
not produce a `ParameterCount` error. -/
theorem c5_parameter_count_check_witness :
    callExpression 3 (initialState [])
        (.node ⟨.identifier, "print"⟩
          [.node ⟨.number, "1"⟩ [], .node ⟨.number, "2"⟩ []]) none =
      .error (.parameterCount "print" 2 1) ∧
    callExpression 5 (initialState [])
        (.node ⟨.identifier, "syscall"⟩
          [.node ⟨.number, "60"⟩ [], .node ⟨.number, "0"⟩ []]) none ≠
      .error (.parameterCount "syscall" 2 7) := by
  constructor
  · exact c5_parameter_count_check.1 2 (initialState []) ⟨.identifier, "print"⟩
      [.node ⟨.number, "1"⟩ [], .node ⟨.number, "2"⟩ []] printBuiltin true none
      rfl rfl (by decide)
  · exact c5_parameter_count_check.2 5 (initialState [])
      [.node ⟨.number, "60"⟩ [], .node ⟨.number, "0"⟩ []] none rfl
      (by simp [Expr.isLeaf]) "syscall" 2 7

/-- `C8` as amended: the checks of a for-statement header are ordered. A
header without `..` fails with `MissingRange`. When `..` is present and the
header contains no operator token, an empty start fails with
`MissingRangeStart`; a nonempty start (with a register available for it)
followed by an empty limit fails with `MissingRangeLimit`. When an operator
token occurs, the tokens before `..` go down the assignment path instead. -/
theorem c8_amended_range_errors :
    (∀ (st : State) (t0 : Token) (expr : List Token),
        tokenIndex expr .range = none →
        forStart st (t0 :: expr) = .error .missingRange) ∧
    (∀ (st : State) (t0 : Token) (expr : List Token) (p : Nat),
        tokenIndex expr .range = some p →
        tokenIndex expr .operator = none →
        expr.take p = [] →
        forStart st (t0 :: expr) = .error .missingRangeStart) ∧
    (∀ (st : State) (t0 : Token) (expr : List Token) (p : Nat) (r : RegName),
        tokenIndex expr .range = some p →
        tokenIndex expr .operator = none →
        expr.take p ≠ [] →
        findFreeRegister st.regs = some r →
        expr.drop (p + 1) = [] →
        forStart st (t0 :: expr) = .error .missingRangeLimit) := by
  refine ⟨?_, ?_, ?_⟩
  · intro st t0 expr h1
    simp [forStart, h1]
  · intro st t0 expr p h1 h2 h3
    simp [forStart, h1, h2, h3]
  · intro st t0 expr p r h1 h2 h3 h4 h5
    simp [forStart, h1, h2, h3, h4, h5, tokensToRegister]

/-- `C8` witness for the amended statement: all three errors at concrete
headers. -/
theorem c8_amended_range_errors_witness :
    forStart (initialState []) [⟨.keyword, "for"⟩, ⟨.number, "1"⟩] = .error .missingRange ∧
    forStart (initialState []) [⟨.keyword, "for"⟩, ⟨.range, ".."⟩, ⟨.number, "1"⟩] =
      .error .missingRangeStart ∧
    forStart (initialState []) [⟨.keyword, "for"⟩, ⟨.number, "1"⟩, ⟨.range, ".."⟩] =
      .error .missingRangeLimit :=
  ⟨c8_amended_range_errors.1 _ _ _ rfl,
   c8_amended_range_errors.2.1 _ _ _ 0 rfl rfl rfl,
   c8_amended_range_errors.2.2 _ _ _ 1 "rax" rfl rfl (by decide) rfl rfl⟩

/-- `C4`: a well-formed for-header — anonymous `for START..LIMIT` or named
`for VAR = START..LIMIT` — emits, in order, the evaluation of START into
the counter register, the label `for_N`, the evaluation of LIMIT into a
temporary register, the compare, and the jump-if-equal to `for_N_end`; the
loop close emits the counter increment, the jump back to `for_N`, and the
`for_N_end` label, and frees both the counter and the limit register (in
the named form, after the body has read the loop variable, here marked
used). Because the compare-and-exit precedes the body, the emitted code of
`for 0..0` with a marker body executes the body zero times. -/
theorem c4_for_loop_emission :
    (∀ (st : State) (t0 : Token) (expr startToks limitToks : List Token)
        (p : Nat) (counter temporary : RegName),
        tokenIndex expr .range = some p →
        tokenIndex expr .operator = none →
        expr.take p = startToks →
        startToks ≠ [] →
        expr.drop (p + 1) = limitToks →
        limitToks ≠ [] →
        findFreeRegister st.regs = some counter →
        findFreeRegister ((counter, RegUser.expression) :: st.regs) = some temporary →
        ∃ st1 st2,
          forStart st (t0 :: expr) = .ok (st1,
            [.instr (.evalTokens counter startToks),
             .instr (.addLabel ("for_" ++ toString (st.forCounter + 1))),
             .instr (.evalTokens temporary limitToks),
             .instr (.cmpRegisterRegister counter temporary),
             .instr (.jumpIfEqual ("for_" ++ toString (st.forCounter + 1) ++ "_end"))]) ∧
          forEnd st1 = .ok (st2,
            [.instr (.increaseRegister counter),
             .instr (.jump ("for_" ++ toString (st.forCounter + 1))),
             .instr (.addLabel ("for_" ++ toString (st.forCounter + 1) ++ "_end"))]) ∧
          lookupReg st2.regs counter = none ∧
          lookupReg st2.regs temporary = none) ∧
    (∀ (st : State) (t0 teq : Token) (expr rhs limitToks : List Token)
        (varName : String) (p q : Nat) (counter temporary : RegName),
        tokenIndex expr .range = some p →
        tokenIndex expr .operator = some q →
        expr.take p = ⟨.identifier, varName⟩ :: teq :: rhs →
        teq.kind = .operator →
        teq.text = "=" →
        rhs ≠ [] →
        expr.drop (p + 1) = limitToks →
        limitToks ≠ [] →
        findFreeRegister st.regs = some counter →
        findFreeRegister
          ((counter, RegUser.variable varName st.instructionEnd) :: st.regs) =
          some temporary →
        ∃ st1 st2,
          forStart st (t0 :: expr) = .ok (st1,
            [.instr (.evalTokens counter rhs),
             .instr (.addLabel ("for_" ++ toString (st.forCounter + 1))),
             .instr (.evalTokens temporary limitToks),
             .instr (.cmpRegisterRegister counter temporary),
             .instr (.jumpIfEqual ("for_" ++ toString (st.forCounter + 1) ++ "_end"))]) ∧
          forEnd { st1 with scopes := scopesMarkUsed st1.scopes varName } = .ok (st2,
            [.instr (.increaseRegister counter),
             .instr (.jump ("for_" ++ toString (st.forCounter + 1))),
             .instr (.addLabel ("for_" ++ toString (st.forCounter + 1) ++ "_end"))]) ∧
          lookupReg st2.regs counter = none ∧
          lookupReg st2.regs temporary = none) ∧
    (runMachine 20 (machineFor loopZeroProgram)).bodyCount = 0 ∧
    (runMachine 20 (machineFor loopZeroProgram)).pc = loopZeroProgram.length := by
  refine ⟨?_, ?_, by rfl, by rfl⟩
  · intro st t0 expr startToks limitToks p counter temporary
    intro h1 h2 h3 h4 h5 h6 h7 h8
    have hc : lookupReg st.regs counter = none := findFreeRegister_lookup h7
    have ht : lookupReg ((counter, RegUser.expression) :: st.regs) temporary = none :=
      findFreeRegister_lookup h8
    refine ⟨{ st with
              scopes := [] :: st.scopes,
              regs := (temporary, RegUser.expression) ::
                (counter, RegUser.expression) :: st.regs,
              forCounter := st.forCounter + 1,
              forStack := st.forStack ++
                [{ labelStart := "for_" ++ toString (st.forCounter + 1),
                   labelEnd := "for_" ++ toString (st.forCounter + 1) ++ "_end",
                   counter := counter, limit := some temporary }] }, ?_, ?_, ?_⟩
    case refine_1 =>
      exact { st with
              regs := freeReg (freeReg
                ((temporary, RegUser.expression) ::
                  (counter, RegUser.expression) :: st.regs)
                counter) temporary,
              forCounter := st.forCounter + 1 }
    case refine_2 =>
      simp [forStart, h1, h2, h3, h4, h5, h6, h7, h8, tokensToRegister, compareExpression,
        useRegIgnore, hc, ht]
    case refine_3 =>
      constructor
      · simp [forEnd, popScope, List.getLast?_concat, List.dropLast_concat]
      · constructor
        · rw [lookupReg_freeReg]
          by_cases h : temporary = counter
          · simp [h]
          · simp [h, lookupReg_freeReg]
        · rw [lookupReg_freeReg]
          simp
  · intro st t0 teq expr rhs limitToks varName p q counter temporary
    intro h1 h2 h3 h4 h5 h6 h7 h8 h9 h10
    have hc : lookupReg st.regs counter = none := findFreeRegister_lookup h9
    have ht : lookupReg
        ((counter, RegUser.variable varName st.instructionEnd) :: st.regs) temporary =
        none := findFreeRegister_lookup h10
    refine ⟨{ st with
              scopes := [{ name := varName, register := some counter,
                           aliveUntil := st.instructionEnd, type := .i64,
                           used := false }] :: st.scopes,
              regs := (temporary, RegUser.expression) ::
                (counter, RegUser.variable varName st.instructionEnd) :: st.regs,
              forCounter := st.forCounter + 1,
              forStack := st.forStack ++
                [{ labelStart := "for_" ++ toString (st.forCounter + 1),
                   labelEnd := "for_" ++ toString (st.forCounter + 1) ++ "_end",
                   counter := counter, limit := some temporary }] }, ?_, ?_, ?_⟩
    case refine_1 =>
      exact { st with
              regs := freeReg (freeReg (freeReg
                ((temporary, RegUser.expression) ::
                  (counter, RegUser.variable varName st.instructionEnd) :: st.regs)
                counter) counter) temporary,
              forCounter := st.forCounter + 1 }
    case refine_2 =>
      simp [forStart, h1, h2, h3, h4, h5, h6, h7, h8, h9, h10, assignVariable,
        compareExpression, useRegIgnore, hc, ht]
    case refine_3 =>
      constructor
      · simp [forEnd, popScope, scopesMarkUsed, List.getLast?_concat,
          List.dropLast_concat]
      · constructor
        · rw [lookupReg_freeReg]
          by_cases h : temporary = counter
          · simp [h]
          · simp [h, lookupReg_freeReg]
        · rw [lookupReg_freeReg]
          simp

/-- `C4` witness: the general emission statement applied to the concrete
anonymous header `for 0..0` and the concrete named header `for i = 0..3`. -/
theorem c4_for_loop_emission_witness :
    tokenIndex [⟨.number, "0"⟩, ⟨.range, ".."⟩, ⟨.number, "0"⟩] .range = some 1 ∧
    (forStart (initialState [])
      (⟨.keyword, "for"⟩ ::
        [⟨.number, "0"⟩, ⟨.range, ".."⟩, ⟨.number, "0"⟩])).isOk = true ∧
    (forStart (initialState [])
      (⟨.keyword, "for"⟩ ::
        [⟨.identifier, "i"⟩, ⟨.operator, "="⟩, ⟨.number, "0"⟩,
         ⟨.range, ".."⟩, ⟨.number, "3"⟩])).isOk = true := by
  refine ⟨rfl, ?_, ?_⟩
  · obtain ⟨st1, st2, h1, h2, h3, h4⟩ :=
      c4_for_loop_emission.1 (initialState []) ⟨.keyword, "for"⟩
        [⟨.number, "0"⟩, ⟨.range, ".."⟩, ⟨.number, "0"⟩] [⟨.number, "0"⟩] [⟨.number, "0"⟩]
        1 "rax" "rbx" rfl rfl rfl (by decide) rfl (by decide) rfl rfl
    rw [h1]
    rfl
  · obtain ⟨st1, st2, h1, h2, h3, h4⟩ :=
      c4_for_loop_emission.2.1 (initialState []) ⟨.keyword, "for"⟩ ⟨.operator, "="⟩
        [⟨.identifier, "i"⟩, ⟨.operator, "="⟩, ⟨.number, "0"⟩,
         ⟨.range, ".."⟩, ⟨.number, "3"⟩]
        [⟨.number, "0"⟩] [⟨.number, "3"⟩] "i" 3 1 "rax" "rbx"
        rfl rfl rfl rfl rfl (by decide) rfl (by decide) rfl rfl
    rw [h1]
    rfl

theorem event_shape_helper (P B X Y Z ev Q : List Event) (w : Event)
    (h1 : P ++ B ++ X ++ Y ++ Z = ev) (h2 : B = w :: Q) :
    ∃ tail, ev = P ++ (w :: tail) := by
  subst h2
  exact ⟨Q ++ X ++ Y ++ Z, by rw [← h1]; simp [List.append_assoc]⟩

/-- `C2` as amended: for every call site compiled through `BeforeCall` (a
callee resolved in the user-function table), the caller's side-effect
increment — performed when the callee's published flag is positive — comes
first and is not an instruction; the wait on the callee follows it, and
every emitted instruction of the call comes after that wait. -/
theorem c2_amended_wait_precedes_instructions :
    ∀ (fuel : Nat) (st : State) (tok : Token) (params : List Expr) (fn : Function)
      (target : Option RegName) (ty : Option Ty) (st2 : State) (ev : List Event),
      resolveFunction st.environment (polymorphName tok.text params.length) =
        some (fn, false) →
      callExpression fuel st (.node tok params) target = .ok (ty, st2, ev) →
      ∃ tail,
        ev = (if fn.sideEffects > 0 then [Event.sideEffectIncrement] else []) ++
          (Event.wait fn.name :: tail) ∧
        ∀ e ∈ (if fn.sideEffects > 0 then [Event.sideEffectIncrement]
               else ([] : List Event)), e.isInstr = false := by
  intro fuel st tok params fn target ty st2 ev hres h
  have hpre : ∀ e ∈ (if fn.sideEffects > 0 then [Event.sideEffectIncrement]
      else ([] : List Event)), e.isInstr = false := by
    split <;> simp [Event.isInstr]
  cases fuel with
  | zero => exact Outcome.noConfusion h
  | succ fuel =>
      simp only [callExpression, hres, Bool.false_eq_true, false_and, reduceIte] at h
      split at h
      · exact Outcome.noConfusion h
      · rcases hbc : beforeCall fuel
            (if fn.sideEffects > 0 then
              { st with functionSideEffects := st.functionSideEffects + 1 } else st)
            fn params with ⟨⟨pushL, cregs⟩, st3, evB⟩ | e | m | _
        · obtain ⟨hdet, tailB, hevB⟩ :=
            beforeCall_ok_inversion _ _ _ _ _ _ _ _ hbc
          simp only [hbc] at h
          split at h
          · exact Outcome.noConfusion h
          · exact Outcome.noConfusion h
          · exact Outcome.noConfusion h
          · injection h with h
            injection h with hty h
            injection h with hst hev
            obtain ⟨tail, ht⟩ := event_shape_helper _ _ _ _ _ _ _ _ hev hevB
            exact ⟨tail, ht, hpre⟩
        · simp [hbc] at h
        · simp [hbc] at h
        · simp [hbc] at h

/-- `C2` amended witness: the call to the side-effecting `uFn` produces the
increment, the wait, and then the call instruction. -/
theorem c2_amended_wait_precedes_instructions_witness :
    (if uFn.sideEffects > 0 then [Event.sideEffectIncrement] else []) ++
      (Event.wait "u|0" :: [Event.instr (.callLabel "u|0")]) =
      [Event.sideEffectIncrement, Event.wait "u|0", Event.instr (.callLabel "u|0")] := by
  obtain ⟨tail, h1, h2⟩ :=
    c2_amended_wait_precedes_instructions 5 (initialState [("u|0", uFn)])
      ⟨.identifier, "u"⟩ [] uFn none none
      { initialState [("u|0", uFn)] with
        environment := [("u|0", { uFn with callCount := 1 })],
        functionSideEffects := 1 }
      [Event.sideEffectIncrement, Event.wait "u|0", Event.instr (.callLabel "u|0")]
      rfl rfl
  simp [uFn]

theorem allScopeVariables_cons (s : List Variable) (rest : List (List Variable)) :
    allScopeVariables (s :: rest) = s ++ allScopeVariables rest := rfl

theorem scopesGet_mem :
    ∀ (scopes : List (List Variable)) (name : String) (v : Variable),
      scopesGet scopes name = some v → v ∈ allScopeVariables scopes := by
  intro scopes
  induction scopes with
  | nil => intro name v h; simp [scopesGet] at h
  | cons s rest ih =>
      intro name v h
      simp only [scopesGet] at h
      rcases hf : s.find? (fun w => w.name = name) with _ | w
      · simp only [hf] at h
        rw [allScopeVariables_cons]
        exact List.mem_append_right _ (ih name v h)
      · simp only [hf, Option.some.injEq] at h
        subst h
        rw [allScopeVariables_cons]
        exact List.mem_append_left _ (List.mem_of_find?_eq_some hf)

theorem scopesMarkUsed_register_isSome :
    ∀ (scopes : List (List Variable)) (name : String),
      (∀ v ∈ allScopeVariables scopes, (v.register).isSome = true) →
      ∀ v ∈ allScopeVariables (scopesMarkUsed scopes name),
        (v.register).isSome = true := by
  intro scopes
  induction scopes with
  | nil => intro name h v hv; simp [scopesMarkUsed, allScopeVariables] at hv
  | cons s rest ih =>
      intro name h v hv
      simp only [scopesMarkUsed] at hv
      split at hv
      · rw [allScopeVariables_cons] at hv
        rcases List.mem_append.mp hv with hv | hv
        · obtain ⟨w, hw, rfl⟩ := List.mem_map.mp hv
          have hws := h w (by rw [allScopeVariables_cons]; exact List.mem_append_left _ hw)
          by_cases hc : w.name = name
          · simpa [hc] using hws
          · simpa [hc] using hws
        · exact h v (by rw [allScopeVariables_cons]; exact List.mem_append_right _ hv)
      · rw [allScopeVariables_cons] at hv
        rcases List.mem_append.mp hv with hv | hv
        · exact h v (by rw [allScopeVariables_cons]; exact List.mem_append_left _ hv)
        · exact ih name
            (fun w hw => h w (by rw [allScopeVariables_cons]; exact List.mem_append_right _ hw))
            v hv

theorem scopesSetRegister_register_isSome :
    ∀ (scopes : List (List Variable)) (name : String) (r : RegName),
      (∀ v ∈ allScopeVariables scopes, (v.register).isSome = true) →
      ∀ v ∈ allScopeVariables (scopesSetRegister scopes name r),
        (v.register).isSome = true := by
  intro scopes
  induction scopes with
  | nil => intro name r h v hv; simp [scopesSetRegister, allScopeVariables] at hv
  | cons s rest ih =>
      intro name r h v hv
      simp only [scopesSetRegister] at hv
      split at hv
      · rw [allScopeVariables_cons] at hv
        rcases List.mem_append.mp hv with hv | hv
        · obtain ⟨w, hw, rfl⟩ := List.mem_map.mp hv
          have hws := h w (by rw [allScopeVariables_cons]; exact List.mem_append_left _ hw)
          by_cases hc : w.name = name
          · simp [hc]
          · simpa [hc] using hws
        · exact h v (by rw [allScopeVariables_cons]; exact List.mem_append_right _ hv)
      · rw [allScopeVariables_cons] at hv
        rcases List.mem_append.mp hv with hv | hv
        · exact h v (by rw [allScopeVariables_cons]; exact List.mem_append_left _ hv)
        · exact ih name r
            (fun w hw => h w (by rw [allScopeVariables_cons]; exact List.mem_append_right _ hw))
            v hv

theorem expressionToRegister_leaf_analysis :
    ∀ (fuel : Nat) (st : State) (e : Expr) (target : RegName),
      e.isLeaf = true →
      (∀ v ∈ allScopeVariables st.scopes, (v.register).isSome = true) →
      (∀ m, expressionToRegister fuel st e target ≠ .panic m) ∧
      (∀ ty st2 ev, expressionToRegister fuel st e target = .ok (ty, st2, ev) →
          st2.regs = st.regs ∧
          (∀ v ∈ allScopeVariables st2.scopes, (v.register).isSome = true)) := by
  intro fuel st e target hleaf hscope
  cases fuel with
  | zero =>
      exact ⟨fun m h => by simp [expressionToRegister] at h,
             fun ty st2 ev h => by simp [expressionToRegister] at h⟩
  | succ fuel =>
      obtain ⟨tok, children⟩ := e
      cases children with
      | cons c cs => simp [Expr.isLeaf] at hleaf
      | nil =>
          constructor
          · intro m h
            simp only [expressionToRegister] at h
            cases htk : tok.kind
            case identifier =>
              simp only [htk] at h
              rcases hsg : scopesGet st.scopes tok.text with _ | v
              · simp [hsg] at h
              · simp only [hsg] at h
                have hvs : (v.register).isSome = true :=
                  hscope v (scopesGet_mem _ _ _ hsg)
                rcases hvr : v.register with _ | r2
                · rw [hvr] at hvs
                  simp at hvs
                · simp only [hvr] at h
                  split at h <;> simp at h
            all_goals simp [htk] at h
          · intro ty st2 ev h
            simp only [expressionToRegister] at h
            cases htk : tok.kind
            case number =>
              simp only [htk, Outcome.ok.injEq, Prod.mk.injEq] at h
              obtain ⟨h1, h2, h3⟩ := h
              subst h2
              exact ⟨rfl, hscope⟩
            case text =>
              simp only [htk, Outcome.ok.injEq, Prod.mk.injEq] at h
              obtain ⟨h1, h2, h3⟩ := h
              subst h2
              exact ⟨rfl, hscope⟩
            case identifier =>
              simp only [htk] at h
              rcases hsg : scopesGet st.scopes tok.text with _ | v
              · simp [hsg] at h
              · simp only [hsg] at h
                rcases hvr : v.register with _ | r2
                · simp [hvr] at h
                · simp only [hvr] at h
                  have hpres := scopesMarkUsed_register_isSome st.scopes tok.text hscope
                  split at h <;>
                    (simp only [Outcome.ok.injEq, Prod.mk.injEq] at h
                     obtain ⟨h1, h2, h3⟩ := h
                     subst h2
                     exact ⟨rfl, hpres⟩)
            all_goals simp [htk] at h

/-- `C10` as amended: for flat calls — every argument a leaf expression, at
most as many arguments as ABI and parameter slots — whenever every occupied
register's user that is not a `Variable` sits on an ABI slot already
claimed earlier in the loop (in particular at loop entry, when all users
are variables), the relocation path always rebinds successfully and the
argument loop of `BeforeCall` never panics. A call nested in argument
position violates this precondition and does reach the panic branch. -/
theorem c10_amended_flat_calls_no_panic :
    ∀ (fn : Function) (cregs : List RegName) (fuel : Nat) (st : State)
      (args : List Expr) (i : Nat),
      (∀ a ∈ args, a.isLeaf = true) →
      i + args.length ≤ cregs.length →
      i + args.length ≤ fn.parameters.length →
      cregs.Nodup →
      (∀ v ∈ allScopeVariables st.scopes, (v.register).isSome = true) →
      (∀ r u, lookupReg st.regs r = some u → u.isVariable = false →
          ∃ j, j < i ∧ cregs.get? j = some r) →
      ∀ m, beforeCallLoop fuel st fn cregs args i ≠ .panic m := by
  intro fn cregs fuel
  induction fuel with
  | zero =>
      intro st args i _ _ _ _ _ _ m h
      simp [beforeCallLoop] at h
  | succ fuel ih =>
      intro st args i hleaf hlen1 hlen2 hnd hscope hinv m h
      cases args with
      | nil => simp [beforeCallLoop] at h
      | cons a rest =>
          have haLeaf : a.isLeaf = true := hleaf a (List.mem_cons_self _ _)
          have hrestLeaf : ∀ x ∈ rest, x.isLeaf = true :=
            fun x hx => hleaf x (List.mem_cons_of_mem _ hx)
          have hil : i < cregs.length := by
            simp only [List.length_cons] at hlen1
            omega
          have hip : i < fn.parameters.length := by
            simp only [List.length_cons] at hlen2
            omega
          obtain ⟨creg, hcreg⟩ : ∃ c, cregs.get? i = some c := by
            rw [List.get?_eq_get hil]
            exact ⟨_, rfl⟩
          obtain ⟨param, hparam⟩ : ∃ p, fn.parameters.get? i = some p := by
            rw [List.get?_eq_get hip]
            exact ⟨_, rfl⟩
          have hlenr1 : (i + 1) + rest.length ≤ cregs.length := by
            simp only [List.length_cons] at hlen1
            omega
          have hlenr2 : (i + 1) + rest.length ≤ fn.parameters.length := by
            simp only [List.length_cons] at hlen2
            omega
          simp only [beforeCallLoop, hcreg] at h
          rcases hskip : alreadyInCallRegister st a creg with _ | v
          · simp only [hskip] at h
            rcases hlk : lookupReg st.regs creg with _ | u
            · -- ABI register free: claim it and evaluate the leaf
              simp only [hlk, hparam] at h
              have hregs4 : useRegIgnore st.regs creg (.parameter param) =
                  (creg, RegUser.parameter param) :: st.regs := by
                simp [useRegIgnore, hlk]
              have hanalysis := expressionToRegister_leaf_analysis fuel
                { st with regs := useRegIgnore st.regs creg (.parameter param) }
                a creg haLeaf hscope
              rcases hev : expressionToRegister fuel
                  { st with regs := useRegIgnore st.regs creg (.parameter param) }
                  a creg with ⟨ty, st4, ev4⟩ | e2 | m2 | _
              · simp only [hev] at h
                obtain ⟨hregs, hscope4⟩ := hanalysis.2 ty st4 ev4 hev
                split at h
                · exact Outcome.noConfusion h
                · rcases hrec : beforeCallLoop fuel st4 fn cregs rest (i + 1) with
                    ⟨st5, ev5⟩ | e3 | m3 | _ <;> simp only [hrec] at h
                  · exact Outcome.noConfusion h
                  · exact Outcome.noConfusion h
                  · refine ih st4 rest (i + 1) hrestLeaf hlenr1 hlenr2 hnd hscope4
                      ?_ m3 hrec
                    intro r u' hr hu'
                    rw [hregs, hregs4, lookupReg_cons] at hr
                    by_cases hc : creg = r
                    · exact ⟨i, Nat.lt_succ_self i, hc ▸ hcreg⟩
                    · rw [if_neg hc] at hr
                      obtain ⟨j, hj, hjr⟩ := hinv r u' hr hu'
                      exact ⟨j, Nat.lt_succ_of_lt hj, hjr⟩
                  · exact Outcome.noConfusion h
              · simp only [hev] at h
                exact Outcome.noConfusion h
              · exact absurd hev (hanalysis.1 m2)
              · simp only [hev] at h
                exact Outcome.noConfusion h
            · rcases u with ⟨vn, va⟩ | ⟨p⟩ | ⟨⟩
              · -- occupied by a variable: relocate it
                rcases hfr : findFreeRegister st.regs with _ | fr
                · simp only [hlk, hfr] at h
                  exact Outcome.noConfusion h
                · simp only [hlk, hfr, hparam] at h
                  have hfrFree : lookupReg st.regs fr = none := findFreeRegister_lookup hfr
                  have hscopeR := scopesSetRegister_register_isSome st.scopes vn fr hscope
                  have hcregFree :
                      lookupReg (freeReg ((fr, RegUser.variable vn va) :: st.regs) creg)
                        creg = none := by
                    rw [lookupReg_freeReg]
                    simp
                  have hregsR : useRegIgnore
                      (freeReg ((fr, RegUser.variable vn va) :: st.regs) creg) creg
                      (.parameter param) =
                      (creg, RegUser.parameter param) ::
                        freeReg ((fr, RegUser.variable vn va) :: st.regs) creg := by
                    simp [useRegIgnore, hcregFree]
                  have hanalysis := expressionToRegister_leaf_analysis fuel
                      { st with
                        regs := useRegIgnore
                          (freeReg ((fr, RegUser.variable vn va) :: st.regs) creg)
                          creg (.parameter param),
                        scopes := scopesSetRegister st.scopes vn fr }
                      a creg haLeaf hscopeR
                  rcases hev : expressionToRegister fuel
                      { st with
                        regs := useRegIgnore
                          (freeReg ((fr, RegUser.variable vn va) :: st.regs) creg)
                          creg (.parameter param),
                        scopes := scopesSetRegister st.scopes vn fr }
                      a creg with ⟨ty, st4, ev4⟩ | e2 | m2 | _
                  · simp only [hev] at h
                    obtain ⟨hregs, hscope4⟩ := hanalysis.2 ty st4 ev4 hev
                    split at h
                    · exact Outcome.noConfusion h
                    · rcases hrec : beforeCallLoop fuel st4 fn cregs rest (i + 1) with
                        ⟨st5, ev5⟩ | e3 | m3 | _ <;> simp only [hrec] at h
                      · exact Outcome.noConfusion h
                      · exact Outcome.noConfusion h
                      · refine ih st4 rest (i + 1) hrestLeaf hlenr1 hlenr2 hnd hscope4
                          ?_ m3 hrec
                        intro r u' hr hu'
                        rw [hregs, hregsR, lookupReg_cons] at hr
                        by_cases hc : creg = r
                        · exact ⟨i, Nat.lt_succ_self i, hc ▸ hcreg⟩
                        · rw [if_neg hc, lookupReg_freeReg] at hr
                          by_cases hc2 : creg = r
                          · exact absurd hc2 hc
                          · rw [if_neg hc2, lookupReg_cons] at hr
                            by_cases hc3 : fr = r
                            · rw [if_pos hc3] at hr
                              injection hr with hr
                              rw [← hr] at hu'
                              simp [RegUser.isVariable] at hu'
                            · rw [if_neg hc3] at hr
                              obtain ⟨j, hj, hjr⟩ := hinv r u' hr hu'
                              exact ⟨j, Nat.lt_succ_of_lt hj, hjr⟩
                      · exact Outcome.noConfusion h
                  · simp only [hev] at h
                    exact Outcome.noConfusion h
                  · exact absurd hev (hanalysis.1 m2)
                  · simp only [hev] at h
                    exact Outcome.noConfusion h
              · -- occupied by a parameter claim: excluded by the precondition
                obtain ⟨j, hj, hjr⟩ := hinv creg (.parameter p) hlk rfl
                obtain ⟨hjl, _⟩ := List.get?_eq_some.mp hjr
                have : j = i := List.get?_inj hjl hnd (hjr.trans hcreg.symm)
                omega
              · -- occupied by a transient expression: excluded likewise
                obtain ⟨j, hj, hjr⟩ := hinv creg .expression hlk rfl
                obtain ⟨hjl, _⟩ := List.get?_eq_some.mp hjr
                have : j = i := List.get?_inj hjl hnd (hjr.trans hcreg.symm)
                omega
          · -- skipped: the variable already sits in its ABI register
            simp only [hskip] at h
            refine ih _ rest (i + 1) hrestLeaf hlenr1 hlenr2 hnd
              (scopesMarkUsed_register_isSome st.scopes v.name hscope) ?_ m h
            intro r u' hr hu'
            obtain ⟨j, hj, hjr⟩ := hinv r u' hr hu'
            exact ⟨j, Nat.lt_succ_of_lt hj, hjr⟩

/-- `C10` witness for the amended statement: a flat one-argument call from a
clean state never panics. -/
theorem c10_amended_flat_calls_no_panic_witness :
    beforeCallLoop 3 (initialState []) gFn callRegisterList
        [Expr.node ⟨.number, "1"⟩ []] 0 ≠ .panic "This should never happen" :=
  c10_amended_flat_calls_no_panic gFn callRegisterList 3 (initialState [])
    [Expr.node ⟨.number, "1"⟩ []] 0
    (by simp [Expr.isLeaf])
    (by simp [callRegisterList])
    (by simp [gFn])
    (by simp [callRegisterList])
    (by simp [initialState, allScopeVariables])
    (by intro r u hr; simp [initialState, lookupReg] at hr)
    "This should never happen"

/-- `C6` counterexample: the already-in-place optimisation bypasses the type
check. The call `f1(s)` has the correct argument count, the variable `s`
has type `Text` while the declared parameter type is `Int64`, and the
callee does not opt out of parameter checking — yet compilation succeeds
with no `InvalidType` error because `s` already sits in the first call-ABI
register. -/
theorem c6_counterexample :
    (callExpression 5 stSkip f1CallExpr none).isOk = true ∧
    f1CallExpr.children.length = f1Fn.parameters.length ∧
    (scopesGet stSkip.scopes "s").map Variable.type = some Ty.text ∧
    f1Fn.parameters.map Parameter.type = [Ty.i64] ∧
    f1Fn.noParameterCheck = false :=
  ⟨rfl, rfl, rfl, rfl, rfl⟩

/-- `C6` as amended: in the argument loop of `BeforeCall`, an argument that
is not skipped by the already-in-place optimisation and whose ABI register
is free (first conjunct) or held by a `Variable` — which is first relocated
to a free general register by an emitted `mov` (second conjunct) — is
evaluated into its ABI register and, when the callee does not opt out, its
resulting type is checked against the declared parameter type: a mismatch
fails with `InvalidType` carrying the got type, the expected type, and the
parameter name, while matching types continue the loop with the relocation
and evaluation events emitted. When the ABI register is held by a
non-`Variable` user, the compile panics before any evaluation or type
check (third conjunct). -/
theorem c6_amended_invalid_type :
    (∀ (fuel : Nat) (st : State) (fn : Function) (cregs : List RegName)
        (parameter : Expr) (rest : List Expr) (i : Nat) (creg : RegName)
        (param : Parameter) (typ : Option Ty) (st2 : State) (ev2 : List Event),
        cregs.get? i = some creg →
        fn.parameters.get? i = some param →
        alreadyInCallRegister st parameter creg = none →
        lookupReg st.regs creg = none →
        expressionToRegister fuel
          { st with regs := useRegIgnore st.regs creg (.parameter param) }
          parameter creg = .ok (typ, st2, ev2) →
        fn.noParameterCheck = false →
        ((typ ≠ some param.type →
            beforeCallLoop (fuel + 1) st fn cregs (parameter :: rest) i =
              .error (.invalidType (typeNameOpt typ) (typeName param.type) param.name)) ∧
         (typ = some param.type →
            ∀ (st3 : State) (ev3 : List Event),
              beforeCallLoop fuel st2 fn cregs rest (i + 1) = .ok (st3, ev3) →
              beforeCallLoop (fuel + 1) st fn cregs (parameter :: rest) i =
                .ok (st3, ev2 ++ ev3)))) ∧
    (∀ (fuel : Nat) (st : State) (fn : Function) (cregs : List RegName)
        (parameter : Expr) (rest : List Expr) (i : Nat) (creg : RegName)
        (param : Parameter) (vn : String) (va : Nat) (fr : RegName)
        (typ : Option Ty) (st2 : State) (ev2 : List Event),
        cregs.get? i = some creg →
        fn.parameters.get? i = some param →
        alreadyInCallRegister st parameter creg = none →
        lookupReg st.regs creg = some (.variable vn va) →
        findFreeRegister st.regs = some fr →
        expressionToRegister fuel
          { st with
            regs := useRegIgnore
              (freeReg ((fr, RegUser.variable vn va) :: st.regs) creg)
              creg (.parameter param),
            scopes := scopesSetRegister st.scopes vn fr }
          parameter creg = .ok (typ, st2, ev2) →
        fn.noParameterCheck = false →
        ((typ ≠ some param.type →
            beforeCallLoop (fuel + 1) st fn cregs (parameter :: rest) i =
              .error (.invalidType (typeNameOpt typ) (typeName param.type) param.name)) ∧
         (typ = some param.type →
            ∀ (st3 : State) (ev3 : List Event),
              beforeCallLoop fuel st2 fn cregs rest (i + 1) = .ok (st3, ev3) →
              beforeCallLoop (fuel + 1) st fn cregs (parameter :: rest) i =
                .ok (st3, [Event.instr (.movRegisterRegister fr creg)] ++ ev2 ++ ev3)))) ∧
    (∀ (fuel : Nat) (st : State) (fn : Function) (cregs : List RegName)
        (parameter : Expr) (rest : List Expr) (i : Nat) (creg : RegName)
        (u : RegUser) (fr : RegName),
        cregs.get? i = some creg →
        alreadyInCallRegister st parameter creg = none →
        lookupReg st.regs creg = some u →
        u.isVariable = false →
        findFreeRegister st.regs = some fr →
        beforeCallLoop (fuel + 1) st fn cregs (parameter :: rest) i =
          .panic "This should never happen") := by
  refine ⟨?_, ?_, ?_⟩
  · intro fuel st fn cregs parameter rest i creg param typ st2 ev2
    intro hci hpi hskip hlk hev hnp
    constructor
    · intro hne
      simp only [beforeCallLoop, hci, hskip, hlk, hpi, hev]
      rw [if_pos ⟨hnp, hne⟩]
    · intro heq st3 ev3 hrec
      simp only [beforeCallLoop, hci, hskip, hlk, hpi, hev, hrec]
      rw [if_neg (fun hc => hc.2 heq)]
      simp
  · intro fuel st fn cregs parameter rest i creg param vn va fr typ st2 ev2
    intro hci hpi hskip hlk hfr hev hnp
    constructor
    · intro hne
      simp only [beforeCallLoop, hci, hskip, hlk, hfr, hpi, hev]
      rw [if_pos ⟨hnp, hne⟩]
    · intro heq st3 ev3 hrec
      simp only [beforeCallLoop, hci, hskip, hlk, hfr, hpi, hev, hrec]
      rw [if_neg (fun hc => hc.2 heq)]
  · intro fuel st fn cregs parameter rest i creg u fr
    intro hci hskip hlk hu hfr
    rcases u with ⟨vn, va⟩ | ⟨p⟩ | ⟨⟩
    · simp [RegUser.isVariable] at hu
    · simp only [beforeCallLoop, hci, hskip, hlk, hfr]
    · simp only [beforeCallLoop, hci, hskip, hlk, hfr]

/-- `C6` amended witness: a text literal passed where `Int64` is declared
fails with `InvalidType{Text, Int64, x}` — both when the ABI register is
free and when it is occupied by a variable that gets relocated first. -/
theorem c6_amended_invalid_type_witness :
    beforeCallLoop 2 (initialState []) f1Fn callRegisterList
        [Expr.node ⟨.text, "hi"⟩ []] 0 =
      .error (.invalidType "Text" "Int64" "x") ∧
    beforeCallLoop 2
        { initialState [] with
          regs := [("rdi", .variable "w" 9)],
          scopes := [[{ name := "w", register := some "rdi", aliveUntil := 9,
                        type := .i64, used := true }]] }
        f1Fn callRegisterList [Expr.node ⟨.text, "hi"⟩ []] 0 =
      .error (.invalidType "Text" "Int64" "x") :=
  ⟨(c6_amended_invalid_type.1 1 (initialState []) f1Fn callRegisterList
      (Expr.node ⟨.text, "hi"⟩ []) [] 0 "rdi" ⟨"x", Ty.i64⟩ (some Ty.text)
      { initialState [] with
        regs := [("rdi", .parameter ⟨"x", Ty.i64⟩)], strings := ["hi"] }
      [.instr (.movRegisterAddress "rdi" 0)]
      rfl rfl rfl rfl rfl rfl).1 (by decide),
   (c6_amended_invalid_type.2.1 1
      { initialState [] with
        regs := [("rdi", .variable "w" 9)],
        scopes := [[{ name := "w", register := some "rdi", aliveUntil := 9,
                      type := .i64, used := true }]] }
      f1Fn callRegisterList
      (Expr.node ⟨.text, "hi"⟩ []) [] 0 "rdi" ⟨"x", Ty.i64⟩ "w" 9 "rax" (some Ty.text)
      { initialState [] with
        regs := [("rdi", .parameter ⟨"x", Ty.i64⟩), ("rax", .variable "w" 9)],
        scopes := [[{ name := "w", register := some "rax", aliveUntil := 9,
                      type := .i64, used := true }]],
        strings := ["hi"] }
      [.instr (.movRegisterAddress "rdi" 0)]
      rfl rfl rfl rfl rfl rfl rfl).1 (by decide)⟩

theorem stringPoolFind_some_mem :
    ∀ (pool : List String) (s : String) (a : Nat),
      stringPoolFind pool s = some a → s ∈ pool := by
  intro pool
  induction pool with
  | nil => intro s a h; simp [stringPoolFind] at h
  | cons p rest ih =>
      intro s a h
      simp only [stringPoolFind] at h
      by_cases hp : p = s
      · exact hp ▸ List.mem_cons_self _ _
      · rw [if_neg hp] at h
        rcases hfind : stringPoolFind rest s with _ | b
        · rw [hfind] at h
          exact Option.noConfusion h
        · exact List.mem_cons_of_mem _ (ih s b hfind)

/-- `C7`: compiling `print(s)` for a text literal `s` appends a newline,
interns the resulting string in the pool, and emits exactly the Linux write
sequence — syscall registers 0 to 3 loaded with the write syscall number,
file descriptor 1, the interned string's address, and length
`s.length + 1` — followed by the `syscall` instruction. At `s = ""` the
written length is 1. -/
theorem c7_print_write_sequence :
    ∀ (fuel : Nat) (st : State) (s : String),
      lookupEnv st.environment "print" = none →
      callExpression (fuel + 1) st
          (.node ⟨.identifier, "print"⟩ [.node ⟨.text, s⟩ []]) none =
        .ok (none,
          { st with functionSideEffects := st.functionSideEffects + 1,
                    strings := (addString st.strings (s ++ "\n")).2 },
          [Event.sideEffectIncrement,
           .instr (.movRegisterNumber "rax" sysWrite),
           .instr (.movRegisterNumber "rdi" 1),
           .instr (.movRegisterAddress "rsi" (addString st.strings (s ++ "\n")).1),
           .instr (.movRegisterNumber "rdx" (s.length + 1)),
           .instr .syscallInstr]) ∧
      (s ++ "\n") ∈ (addString st.strings (s ++ "\n")).2 := by
  intro fuel st s henv
  constructor
  · simp [callExpression, Expr.tok, resolveFunction, polymorphName, builtinFunction,
      henv, printBuiltin, printLn, BuiltinPrint, BuiltinStore, BuiltinSyscall,
      syscallRegisterList, sysWrite, List.getD]
    rfl
  · unfold addString
    rcases hfind : stringPoolFind st.strings (s ++ "\n") with _ | a
    · simp [hfind]
    · simp only [hfind]
      exact stringPoolFind_some_mem _ _ _ hfind

/-- `C7` witness: `print("")` emits a write of length 1 (the appended
newline). -/
theorem c7_print_write_sequence_witness :
    callExpression 1 (initialState [])
        (.node ⟨.identifier, "print"⟩ [.node ⟨.text, ""⟩ []]) none =
      .ok (none,
        { initialState [] with functionSideEffects := 1, strings := ["\n"] },
        [Event.sideEffectIncrement,
         .instr (.movRegisterNumber "rax" 1),
         .instr (.movRegisterNumber "rdi" 1),
         .instr (.movRegisterAddress "rsi" 0),
         .instr (.movRegisterNumber "rdx" 1),
         .instr .syscallInstr]) :=
  (c7_print_write_sequence 0 (initialState []) "" rfl).1

/-- `C2` counterexample: for a callee with published side effects, the
caller's side-effect increment is the first event of the call sequence and
the wait on the callee comes only second — the increment does not happen
after the wait, and the call otherwise compiles fine. -/
theorem c2_counterexample :
    0 < uFn.sideEffects ∧
    (callExpression 5 (initialState [("u|0", uFn)])
        (.node ⟨.identifier, "u"⟩ []) none).isOk = true ∧
    (Outcome.eventsOf (callExpression 5 (initialState [("u|0", uFn)])
        (.node ⟨.identifier, "u"⟩ []) none)).get? 0 = some Event.sideEffectIncrement ∧
    (Outcome.eventsOf (callExpression 5 (initialState [("u|0", uFn)])
        (.node ⟨.identifier, "u"⟩ []) none)).get? 1 = some (Event.wait "u|0") :=
  ⟨by decide, rfl, rfl, rfl⟩

end QBuild
